import Mathlib

/-!
Video moderation: the aggregation pipeline of `server.js`.

A shallow embedding of the pure parts of `src/server.js`:

* `calculateOverallModeration` (the fuser of frame results and the text result),
* `TextModerator.moderateText`, `calculateToxicityScore`, `calculateSeverity`,
* the `RegExp.prototype.test` protocol of the five `bannedPatterns`, which are
  created once with the global flag and therefore carry `lastIndex` from one
  call to the next,
* `ImageModerator.analyzeDetections` and `calculateImageSeverity`, with the
  issue strings as the template literals build them,
* the frame count and the timestamp loop of `VideoProcessor.extractFrames`.

Conventions.  JavaScript numbers (toxicity scores, detection scores, the
video duration) are exact rationals (`ℚ`).  Severities are the five
string constants the program produces.  A JavaScript string is a Lean `String`
read as its list of characters; indices count characters.  The tokenizer, the
stemmer and `String.prototype.toLowerCase` come from outside the repository
and are fields of the moderator object.
-/

namespace VideoModeration

/-! ## Data model -/

/-- The five severity strings the program produces. -/
inductive Severity where
  | NONE
  | LOW
  | MEDIUM
  | HIGH
  | UNKNOWN
  deriving DecidableEq, Repr

/-- The table `severityLevels` of `calculateOverallModeration`
    (`server.js` line 455). -/
def severityLevels : Severity → Nat
  | .NONE => 0
  | .LOW => 1
  | .MEDIUM => 2
  | .HIGH => 3
  | .UNKNOWN => 0

/-- One detection of the object detector: `{class, score, bbox}`. -/
structure DetectedObject where
  cls : String
  score : ℚ
  bbox : List ℚ
  deriving DecidableEq, Repr

/-- The object `moderateImage` returns. -/
structure ImageModerationResult where
  hasIssues : Bool
  detectedObjects : List DetectedObject
  detectedFaces : Nat
  issues : List String
  severity : Severity
  deriving DecidableEq, Repr

/-- One entry of `frameResults`: `{frame, result}` when the analysis of the
    frame returned, `{frame, error}` when it threw. -/
structure FrameResult where
  frame : String
  result : Option ImageModerationResult
  error : Option String
  deriving DecidableEq, Repr

/-- One entry of `foundBannedWords`: `{word, position, stemmed}`. -/
structure Finding where
  word : String
  position : Nat
  stemmed : String
  deriving DecidableEq, Repr

/-- The object `moderateText` returns. -/
structure TextModerationResult where
  hasIssues : Bool
  bannedWords : List Finding
  hasSuspiciousPatterns : Bool
  toxicityScore : ℚ
  severity : Severity
  deriving DecidableEq, Repr

/-- The two values of the field `status`. -/
inductive Status where
  | PASS
  | REVIEW
  deriving DecidableEq, Repr

/-- The object `calculateOverallModeration` returns. -/
structure OverallModerationResult where
  status : Status
  severity : Severity
  totalIssues : Nat
  requiresHumanReview : Bool
  deriving DecidableEq, Repr

/-! ## The fuser -/

/-- The body of the `forEach` callback at `server.js` lines 458-462: a frame
    with a result whose rank is strictly above the rank of the running
    maximum replaces it; a frame without a result leaves it alone. -/
def frameStep (maxSeverity : Severity) (frame : FrameResult) : Severity :=
  match frame.result with
  | some result =>
    if severityLevels result.severity > severityLevels maxSeverity then result.severity
    else maxSeverity
  | none => maxSeverity

/-- The filter predicate `f => f.result && f.result.hasIssues` of line 470. -/
def frameHasIssues (f : FrameResult) : Bool :=
  match f.result with
  | some result => result.hasIssues
  | none => false

/-- The function `calculateOverallModeration` of `server.js` lines 453-479. -/
def calculateOverallModeration (frameResults : List FrameResult)
    (textAnalysis : TextModerationResult) : OverallModerationResult :=
  let maxSeverity := frameResults.foldl frameStep Severity.NONE
  let maxSeverity :=
    if severityLevels textAnalysis.severity > severityLevels maxSeverity then
      textAnalysis.severity
    else maxSeverity
  let hasIssues : Bool := decide (maxSeverity ≠ Severity.NONE)
  let issueCount := (frameResults.filter frameHasIssues).length +
    (if textAnalysis.hasIssues then 1 else 0)
  { status := if hasIssues then Status.REVIEW else Status.PASS
    severity := maxSeverity
    totalIssues := issueCount
    requiresHumanReview := hasIssues }

/-! ## Regular expressions of `bannedPatterns`

The five patterns are `RegExp` objects with the global flag, so
`RegExp.prototype.test` starts its search at `lastIndex` and stores the end of
the match (or `0` after a failed search) back into the object. -/

/-- The character class `\s` (also the characters `String.prototype.trim` strips). -/
def isWhiteSpace (c : Char) : Bool :=
  let n := c.toNat
  (9 ≤ n && n ≤ 13) || n == 32 || n == 160 || n == 5760 || (8192 ≤ n && n ≤ 8202) ||
    n == 8232 || n == 8233 || n == 8239 || n == 8287 || n == 12288 || n == 65279

/-- The character class `\d`, `[0-9]`. -/
def isDigit (c : Char) : Bool :=
  let n := c.toNat
  48 ≤ n && n ≤ 57

/-- The class `[A-Z]` under the flag `i`: an ASCII letter of either case. -/
def isLetter (c : Char) : Bool :=
  let n := c.toNat
  (65 ≤ n && n ≤ 90) || (97 ≤ n && n ≤ 122)

/-- The word characters of `\b`: `[A-Za-z0-9_]`. -/
def isWordChar (c : Char) : Bool :=
  isLetter c || isDigit c || c == '_'

/-- The fragment of regular-expression syntax the five patterns use. -/
inductive Re where
  | chr (p : Char → Bool)
  | cat (a b : Re)
  | opt (a : Re)
  | star (a : Re)
  | wordBoundary

/-- Greedy `a*`: every iteration must consume input, longer matches are tried
    first, the empty match last.  `step i` lists the ends of one match of `a`
    that starts at `i`. -/
def starEnds (step : Nat → List Nat) : Nat → Nat → List Nat
  | 0, i => [i]
  | fuel + 1, i =>
    (((step i).filter (fun e => decide (i < e))).map (starEnds step fuel)).flatten ++ [i]

/-- Whether position `i` of the text holds a word character (false outside). -/
def isWordAt (text : List Char) (i : Nat) : Bool :=
  match text[i]? with
  | some c => isWordChar c
  | none => false

/-- The backtracking matcher: all ends of a match of the expression that
    starts at position `i`, in the order in which the engine tries them.  The
    head of the list is the match the engine reports. -/
def Re.ends (text : List Char) : Re → Nat → List Nat
  | .chr p, i =>
    match text[i]? with
    | some c => if p c then [i + 1] else []
    | none => []
  | .cat a b, i => ((Re.ends text a i).map (Re.ends text b)).flatten
  | .opt a, i => Re.ends text a i ++ [i]
  | .star a, i => starEnds (Re.ends text a) text.length i
  | .wordBoundary, i =>
    let before := if i = 0 then false else isWordAt text (i - 1)
    if before != isWordAt text i then [i] else []

/-- A literal character under the flag `i` (given in lower case). -/
def Re.ci (c : Char) : Re := .chr (fun x => x.toLower == c)

/-- A literal character. -/
def Re.lit (c : Char) : Re := .chr (fun x => x == c)

/-- The sequence of the listed expressions. -/
def Re.seq : List Re → Re
  | [] => .opt (.chr (fun _ => false))
  | [a] => a
  | a :: rest => .cat a (Re.seq rest)

/-- The quantifier `{n}`. -/
def Re.rep (a : Re) : Nat → Re
  | 0 => .opt (.chr (fun _ => false))
  | 1 => a
  | n + 1 => .cat a (Re.rep a n)

/-- The quantifier `+`. -/
def Re.plus (a : Re) : Re := .cat a (.star a)

/-- A `RegExp` object with the global flag: its pattern and its `lastIndex`. -/
structure RegExp where
  source : Re
  lastIndex : Nat

/-- The search loop of `RegExpBuiltinExec`: try position `i`, then `i + 1`, ...
    for `fuel` positions; the result is the end of the first match. -/
def searchFrom (re : Re) (text : List Char) : Nat → Nat → Option Nat
  | 0, _ => none
  | fuel + 1, i =>
    match (re.ends text i).head? with
    | some e => some e
    | none => searchFrom re text fuel (i + 1)

/-- The method `RegExp.prototype.test` for a global pattern: the search starts
    at `lastIndex`; a match stores its end in `lastIndex`, a failure resets
    `lastIndex` to `0`. -/
def RegExp.test (r : RegExp) (text : String) : Bool × RegExp :=
  let s := text.toList
  if r.lastIndex > s.length then (false, { r with lastIndex := 0 })
  else
    match searchFrom r.source s (s.length + 1 - r.lastIndex) r.lastIndex with
    | some e => (true, { r with lastIndex := e })
    | none => (false, { r with lastIndex := 0 })

/-- Whether the pattern matches somewhere in the text (a search from `0`). -/
def Re.matchesIn (re : Re) (text : String) : Bool :=
  (searchFrom re text.toList (text.toList.length + 1) 0).isSome

/-- The pattern `/http[s]?:\/\/[^\s]+/gi`. -/
def urlPattern : Re :=
  Re.seq [Re.ci 'h', Re.ci 't', Re.ci 't', Re.ci 'p', .opt (Re.ci 's'), Re.lit ':',
    Re.lit '/', Re.lit '/', Re.plus (.chr (fun x => !isWhiteSpace x))]

/-- The pattern `/[0-9]{3}-[0-9]{2}-[0-9]{4}/g`. -/
def ssnPattern : Re :=
  Re.seq [Re.rep (.chr isDigit) 3, Re.lit '-', Re.rep (.chr isDigit) 2, Re.lit '-',
    Re.rep (.chr isDigit) 4]

/-- The pattern `/[A-Z0-9._%+-]+@[A-Z0-9.-]+\.[A-Z]{2,}/gi`. -/
def emailPattern : Re :=
  Re.seq [Re.plus (.chr (fun x => isLetter x || isDigit x || x == '.' || x == '_' ||
      x == '%' || x == '+' || x == '-')),
    Re.lit '@',
    Re.plus (.chr (fun x => isLetter x || isDigit x || x == '.' || x == '-')),
    Re.lit '.', Re.rep (.chr isLetter) 2, .star (.chr isLetter)]

/-- The separator `[\s-]?` of the grouped card pattern. -/
def cardSeparator : Re := .opt (.chr (fun x => isWhiteSpace x || x == '-'))

/-- The pattern `/\b\d{4}[\s-]?\d{4}[\s-]?\d{4}[\s-]?\d{4}\b/g`. -/
def cardPattern : Re :=
  Re.seq [.wordBoundary, Re.rep (.chr isDigit) 4, cardSeparator, Re.rep (.chr isDigit) 4,
    cardSeparator, Re.rep (.chr isDigit) 4, cardSeparator, Re.rep (.chr isDigit) 4,
    .wordBoundary]

/-- The pattern `/\b\d{16}\b/g`. -/
def digits16Pattern : Re :=
  Re.seq [.wordBoundary, Re.rep (.chr isDigit) 16, .wordBoundary]

/-- The five patterns in the order of the array literal (lines 87-93). -/
def patternSources : List Re :=
  [urlPattern, ssnPattern, emailPattern, cardPattern, digits16Pattern]

/-- The array `this.bannedPatterns` as the constructor builds it: every
    `lastIndex` is `0`. -/
def freshPatterns : List RegExp :=
  patternSources.map (fun re => { source := re, lastIndex := 0 })

/-- The loop of lines 125-130: test the patterns in order and stop at the
    first that matches.  Every pattern that was tested keeps the `lastIndex`
    its test left behind; the patterns after the first match are untouched. -/
def testPatterns (text : String) : List RegExp → Bool × List RegExp
  | [] => (false, [])
  | pattern :: rest =>
    let r := pattern.test text
    if r.1 then (true, r.2 :: rest)
    else
      let r2 := testPatterns text rest
      (r2.1, r.2 :: r2.2)

/-! ## The text moderator -/

/-- The set `this.bannedWords` (lines 63-85). -/
def bannedWords : List String :=
  ["kill", "murder", "attack", "harm", "violence", "fight", "war", "weapon",
   "gun", "knife", "bomb", "explode", "shoot", "stab", "assault",
   "hate", "racist", "sexist", "nazi", "supremacist", "bigot", "discriminate",
   "slur", "offensive", "derogatory",
   "porn", "xxx", "nude", "naked", "explicit", "adult", "sex", "sexual",
   "erotic", "orgy", "fetish", "bdsm",
   "drug", "cocaine", "heroin", "marijuana", "weed", "opioid", "overdose",
   "illegal", "crime", "theft", "rob", "steal", "fraud", "scam",
   "suicide", "selfharm", "cutting", "depression", "anxiety", "mental",
   "bully", "harass", "stalk", "threat", "intimidate", "blackmail"]

/-- The array `negativeIndicators` of `calculateToxicityScore` (lines 144-148). -/
def negativeIndicators : List String :=
  ["hate", "stupid", "idiot", "moron", "retard", "kill", "die", "worthless",
   "useless", "disgusting", "filthy", "trash", "ugly", "fat", "stupid",
   "dumb", "loser", "failure", "pathetic"]

/-- A `TextModerator` object.  The tokenizer and the stemmer are the objects
    of the library `natural` stored by the constructor; `toLowerCase` is the
    string method of the runtime; `bannedPatterns` is the array of stateful
    `RegExp` objects. -/
structure TextModerator where
  toLowerCase : String → String
  tokenize : String → List String
  stem : String → String
  bannedPatterns : List RegExp

/-- The guard `!text || text.trim().length === 0` of line 97. -/
def isBlank (text : String) : Bool :=
  text.toList.all isWhiteSpace

/-- The method `calculateSeverity` (lines 162-167). -/
def calculateSeverity (bannedWordCount : Nat) (toxicityScore : ℚ) : Severity :=
  if bannedWordCount > 3 ∨ toxicityScore > 8 / 10 then Severity.HIGH
  else if bannedWordCount > 1 ∨ toxicityScore > 5 / 10 then Severity.MEDIUM
  else if bannedWordCount > 0 ∨ toxicityScore > 3 / 10 then Severity.LOW
  else Severity.NONE

/-- The counter `negativeCount` after the `forEach` of lines 153-157. -/
def countNegative (tokens : List String) : Nat :=
  tokens.foldl (fun negativeCount token =>
    if negativeIndicators.contains token then negativeCount + 1 else negativeCount) 0

/-- The method `calculateToxicityScore` (lines 143-160), in exact arithmetic. -/
def calculateToxicityScore (this : TextModerator) (text : String) : ℚ :=
  let tokens := this.tokenize (this.toLowerCase text)
  let negativeCount := countNegative tokens
  min ((negativeCount : ℚ) / ((max tokens.length 1 : Nat) : ℚ) * 3) 1

/-- The callback of the `forEach` of lines 114-122, on the stemmed token
    `it.2` at index `it.1`: when the stemmed token is in `bannedWords`, push
    the finding `{word: tokens[index], position: index, stemmed: token}`. -/
def pushFinding (tokens : List String) (foundBannedWords : List Finding)
    (it : Nat × String) : List Finding :=
  if bannedWords.contains it.2 then
    foundBannedWords ++ [{ word := tokens.getD it.1 "", position := it.1, stemmed := it.2 }]
  else foundBannedWords

/-- The `forEach` of lines 114-122: walk the stemmed tokens with their index,
    starting from the empty array `foundBannedWords`. -/
def findBannedWords (tokens stemmedTokens : List String) : List Finding :=
  stemmedTokens.enum.foldl (pushFinding tokens) []

/-- The method `moderateText` (lines 96-141).  It returns the result together
    with the moderator after the call, whose patterns carry the `lastIndex`
    values the tests left behind. -/
def moderateText (this : TextModerator) (text : String) :
    TextModerationResult × TextModerator :=
  if isBlank text then
    ({ hasIssues := false, bannedWords := [], hasSuspiciousPatterns := false,
       toxicityScore := 0, severity := Severity.NONE }, this)
  else
    let tokens := this.tokenize (this.toLowerCase text)
    let stemmedTokens := tokens.map this.stem
    let foundBannedWords := findBannedWords tokens stemmedTokens
    let tested := testPatterns text this.bannedPatterns
    let hasSuspiciousPattern := tested.1
    let this2 : TextModerator := { this with bannedPatterns := tested.2 }
    let toxicityScore := calculateToxicityScore this2 text
    ({ hasIssues := decide (foundBannedWords.length > 0) || hasSuspiciousPattern ||
         decide (toxicityScore > 6 / 10)
       bannedWords := foundBannedWords
       hasSuspiciousPatterns := hasSuspiciousPattern
       toxicityScore := toxicityScore
       severity := calculateSeverity foundBannedWords.length toxicityScore }, this2)

/-- The moderator after a sequence of calls of `moderateText`, one per text. -/
def afterCalls (this : TextModerator) (texts : List String) : TextModerator :=
  texts.foldl (fun m text => (moderateText m text).2) this

/-! ## Reference collaborators for concrete evaluation -/

/-- The characters the tokenizer of `natural` keeps inside a token: its
    separator is `/[^A-Za-zА-Яа-я0-9_]+/`. -/
def isTokenChar (c : Char) : Bool :=
  isWordChar c || (1040 ≤ c.toNat && c.toNat ≤ 1103)

/-- Split a character list into the maximal runs of token characters; `cur`
    is the run collected so far. -/
def splitWords : List Char → List Char → List String
  | [], cur => if cur.isEmpty then [] else [String.mk cur]
  | c :: cs, cur =>
    if isTokenChar c then splitWords cs (cur ++ [c])
    else if cur.isEmpty then splitWords cs []
    else String.mk cur :: splitWords cs []

/-- The method `WordTokenizer.tokenize`: split at the separator and drop the
    empty pieces. -/
def wordTokenize (text : String) : List String :=
  splitWords text.toList []

/-- The method `toLowerCase` on texts of ASCII characters. -/
def asciiLower (text : String) : String :=
  String.mk (text.toList.map Char.toLower)

/-- A moderator as the constructor builds it, for the concrete evaluations
    below: the tokenizer and `toLowerCase` as above, fresh patterns, and the
    stemmer on words that no rule of the Porter stemmer rewrites (on those it
    is the identity; the evaluations use no other word). -/
def sampleModerator : TextModerator :=
  { toLowerCase := asciiLower
    tokenize := wordTokenize
    stem := fun token => token
    bannedPatterns := freshPatterns }

/-- The maximum of `0` and the listed ranks. -/
def maxRank (ranks : List Nat) : Nat :=
  ranks.foldr max 0

/-- The ranks of the severities of the frames that have a result. -/
def frameRanks (frameResults : List FrameResult) : List Nat :=
  (frameResults.filterMap (fun f => f.result)).map (fun r => severityLevels r.severity)

/-- The result `moderateText` returns for a blank text (lines 98-104). -/
def allClear : TextModerationResult :=
  { hasIssues := false, bannedWords := [], hasSuspiciousPatterns := false,
    toxicityScore := 0, severity := Severity.NONE }

/-- The result the `catch` branch of `moderateImage` returns (lines 235-241). -/
def analysisFailed : ImageModerationResult :=
  { hasIssues := false, detectedObjects := [], detectedFaces := 0,
    issues := ["Analysis failed"], severity := Severity.UNKNOWN }

/-- A frame entry whose analysis returned a HIGH result. -/
def knifeFrame : FrameResult :=
  { frame := "frame-1.png"
    result := some
      { hasIssues := true, detectedObjects := [], detectedFaces := 0
        issues := ["High-risk object detected: knife (confidence: 0.90)"]
        severity := Severity.HIGH }
    error := none }

/-- A frame entry whose analysis threw: it carries only the error. -/
def failedFrame : FrameResult :=
  { frame := "frame-2.png", result := none, error := some "Models not loaded yet" }

/-- A frame entry that carries the degraded result of a failed analysis. -/
def degradedFrame : FrameResult :=
  { frame := "frame-3.png", result := some analysisFailed, error := none }

/-! ## The image moderator -/

/-- One face of the face detector: `{probability, landmarks}`. -/
structure DetectedFace where
  probability : Option ℚ
  landmarks : List (List ℚ)
  deriving DecidableEq, Repr

/-- The array `inappropriateObjects` of `analyzeDetections` (line 249). -/
def inappropriateObjects : List String :=
  ["person", "cell phone", "book", "laptop", "tv"]

/-- The array `highRiskObjects` of `analyzeDetections` (line 250). -/
def highRiskObjects : List String :=
  ["knife", "gun", "pistol", "rifle", "weapon"]

/-- The array `highRiskKeywords` of `calculateImageSeverity` (line 276). -/
def highRiskKeywords : List String :=
  ["High-risk", "weapon", "gun", "knife"]

/-- Whether the first character list starts the second. -/
def startsWithChars : List Char → List Char → Bool
  | [], _ => true
  | _ :: _, [] => false
  | k :: ks, c :: cs => k == c && startsWithChars ks cs

/-- Whether the keyword occurs in the character list at some position. -/
def includesChars (keyword : List Char) : List Char → Bool
  | [] => keyword.isEmpty
  | c :: cs => startsWithChars keyword (c :: cs) || includesChars keyword cs

/-- The method `String.prototype.includes`. -/
def includes (s keyword : String) : Bool :=
  includesChars keyword.toList s.toList

/-- The method `Number.prototype.toFixed(2)` on an exact rational below
    `10^21`: the sign, then the integer `n` nearest to `100 |x|` (the larger
    one on a tie) printed with at least three digits and a point before the
    last two. -/
def toFixed2 (x : ℚ) : String :=
  let sign := if x < 0 then "-" else ""
  let n := (⌊|x| * 100 + 1 / 2⌋).toNat
  let m := (Nat.repr n).toList
  let m := List.replicate (3 - m.length) '0' ++ m
  sign ++ String.mk (m.take (m.length - 2)) ++ "." ++ String.mk (m.drop (m.length - 2))

/-- The issue string of line 254. -/
def highRiskIssue (obj : DetectedObject) : String :=
  "High-risk object detected: " ++ obj.cls ++ " (confidence: " ++ toFixed2 obj.score ++ ")"

/-- The issue string of line 258. -/
def inappropriateIssue (obj : DetectedObject) : String :=
  "Potentially inappropriate object: " ++ obj.cls

/-- The issue string of line 264. -/
def faceIssue (count : Nat) : String :=
  "Detected " ++ Nat.repr count ++ " face(s) - potential privacy concern"

/-- The issue string of line 269. -/
def spamIssue (count : Nat) : String :=
  "High object count (" ++ Nat.repr count ++ ") - potential spam"

/-- The first test of the `forEach` callback (line 253). -/
def firesHighRisk (toLowerCase : String → String) (obj : DetectedObject) : Bool :=
  highRiskObjects.contains (toLowerCase obj.cls) && decide (obj.score > 5 / 10)

/-- The second test of the `forEach` callback (line 257). -/
def firesInappropriate (toLowerCase : String → String) (obj : DetectedObject) : Bool :=
  inappropriateObjects.contains (toLowerCase obj.cls) && decide (obj.score > 7 / 10)

/-- The `forEach` callback of lines 252-260: the issues one object pushes. -/
def pushObjectIssues (toLowerCase : String → String) (issues : List String)
    (obj : DetectedObject) : List String :=
  let issues :=
    if firesHighRisk toLowerCase obj then issues ++ [highRiskIssue obj] else issues
  if firesInappropriate toLowerCase obj then issues ++ [inappropriateIssue obj] else issues

/-- The method `analyzeDetections` (lines 245-273); `toLowerCase` is the
    string method of the runtime. -/
def analyzeDetections (toLowerCase : String → String) (objects : List DetectedObject)
    (faces : List DetectedFace) : List String :=
  let issues := objects.foldl (pushObjectIssues toLowerCase) []
  let issues := if faces.length > 0 then issues ++ [faceIssue faces.length] else issues
  let issues := if objects.length > 10 then issues ++ [spamIssue objects.length] else issues
  issues

/-- The method `calculateImageSeverity` (lines 275-285). -/
def calculateImageSeverity (issues : List String) : Severity :=
  let hasHighRisk := issues.any (fun issue =>
    highRiskKeywords.any (fun keyword => includes issue keyword))
  if hasHighRisk then Severity.HIGH
  else if issues.length > 2 then Severity.MEDIUM
  else if issues.length > 0 then Severity.LOW
  else Severity.NONE

/-- The count `c` of the detections that raise an issue other than a
    high-risk one, stated over the detections themselves: the objects whose
    lower-cased class is context-flagged with score above 0.7, plus one when
    there is a face, plus one when there are more than 10 objects. -/
def contextIssueCount (toLowerCase : String → String) (objects : List DetectedObject)
    (faces : List DetectedFace) : Nat :=
  objects.countP (fun obj =>
      decide (toLowerCase obj.cls ∈ inappropriateObjects ∧ obj.score > 7 / 10)) +
    (if faces = [] then 0 else 1) + (if objects.length > 10 then 1 else 0)

/-- Three context-flagged objects above the threshold, the third with a
    capitalised label. -/
def contextObjects : List DetectedObject :=
  [{ cls := "person", score := 8 / 10, bbox := [] },
   { cls := "book", score := 9 / 10, bbox := [] },
   { cls := "Laptop", score := 3 / 4, bbox := [] }]

/-- A frame entry whose analysis returned and found nothing. -/
def cleanFrame : FrameResult :=
  { frame := "frame-3.png"
    result := some
      { hasIssues := false, detectedObjects := [], detectedFaces := 0, issues := []
        severity := Severity.NONE }
    error := none }

/-! ## The frame extraction policy -/

/-- The constant `frameCount` of line 301, `Math.min(Math.floor(duration / 2), 10)`,
    on an exact rational duration. -/
def frameCount (duration : ℚ) : ℤ :=
  min ⌊duration / 2⌋ 10

/-- The array `timestamps` after the loop of lines 303-307: for
    `i = 1, ..., frameCount` the value `Math.floor((duration / frameCount) * i)`. -/
def timestamps (duration : ℚ) : List ℤ :=
  (List.range' 1 (frameCount duration).toNat).map
    (fun (i : ℕ) => ⌊duration / (frameCount duration : ℚ) * (i : ℚ)⌋)

/-! ## Theorems: the fuser -/

theorem foldl_frameStep_rank (frames : List FrameResult) (s : Severity) :
    severityLevels (frames.foldl frameStep s) =
      max (severityLevels s) (maxRank (frameRanks frames)) := by
  induction frames generalizing s with
  | nil => simp [maxRank, frameRanks]
  | cons f rest ih =>
    rw [List.foldl_cons, ih]
    cases hf : f.result with
    | none => simp [frameStep, hf, frameRanks, maxRank]
    | some r =>
      have hr : frameRanks (f :: rest) = severityLevels r.severity :: frameRanks rest := by
        simp [frameRanks, hf]
      rw [hr]
      simp only [frameStep, hf, maxRank, List.foldr_cons]
      split_ifs with h <;> omega

theorem foldl_frameStep_ne_unknown (frames : List FrameResult) (s : Severity)
    (hs : s ≠ Severity.UNKNOWN) : frames.foldl frameStep s ≠ Severity.UNKNOWN := by
  induction frames generalizing s with
  | nil => simpa using hs
  | cons f rest ih =>
    rw [List.foldl_cons]
    apply ih
    unfold frameStep
    cases hf : f.result with
    | none => simpa using hs
    | some r =>
      simp only
      split_ifs with h
      · intro hu
        rw [hu] at h
        simp [severityLevels] at h
      · exact hs

theorem severity_eq_of_rank_eq {a b : Severity} (ha : a ≠ Severity.UNKNOWN)
    (hb : b ≠ Severity.UNKNOWN) (h : severityLevels a = severityLevels b) : a = b := by
  cases a <;> cases b <;> simp_all [severityLevels]

theorem overall_severity_ne_unknown (frames : List FrameResult) (t : TextModerationResult) :
    (calculateOverallModeration frames t).severity ≠ Severity.UNKNOWN := by
  have h0 := foldl_frameStep_ne_unknown frames Severity.NONE (by decide)
  simp only [calculateOverallModeration]
  split_ifs with h
  · intro hu
    rw [hu] at h
    simp [severityLevels] at h
  · exact h0

theorem overall_severity_rank (frames : List FrameResult) (t : TextModerationResult) :
    severityLevels (calculateOverallModeration frames t).severity =
      max (maxRank (frameRanks frames)) (severityLevels t.severity) := by
  have h0 := foldl_frameStep_rank frames Severity.NONE
  simp only [calculateOverallModeration]
  split_ifs with h
  · rw [h0] at h
    simp only [severityLevels] at h ⊢
    omega
  · rw [h0] at h ⊢
    simp only [severityLevels] at h ⊢
    omega

theorem maxRank_perm {l₁ l₂ : List Nat} (h : l₁.Perm l₂) : maxRank l₁ = maxRank l₂ := by
  induction h with
  | nil => rfl
  | cons x _ ih => simp only [maxRank, List.foldr_cons] at ih ⊢; rw [ih]
  | swap x y l => simp only [maxRank, List.foldr_cons]; omega
  | trans _ _ ih₁ ih₂ => exact ih₁.trans ih₂

/-- C1: the rank of the severity `calculateOverallModeration` returns is the
    maximum of `0`, the ranks of the severities of the frames that have a
    result, and the rank of the severity of the text result; frames that carry
    only an error are not among the contributors. -/
theorem C1_overall_rank_is_max (frameResults : List FrameResult)
    (textAnalysis : TextModerationResult) :
    severityLevels (calculateOverallModeration frameResults textAnalysis).severity =
      max (maxRank ((frameResults.filterMap (fun f => f.result)).map
            (fun r => severityLevels r.severity)))
          (severityLevels textAnalysis.severity) :=
  overall_severity_rank frameResults textAnalysis

/-- C2: `calculateOverallModeration` is order-independent: on two frame lists
    that are permutations of each other it returns the same severity, the same
    totalIssues, the same status and the same requiresHumanReview. -/
theorem C2_overall_order_independent (frames₁ frames₂ : List FrameResult)
    (textAnalysis : TextModerationResult) (h : frames₁.Perm frames₂) :
    (calculateOverallModeration frames₁ textAnalysis).severity =
        (calculateOverallModeration frames₂ textAnalysis).severity ∧
      (calculateOverallModeration frames₁ textAnalysis).totalIssues =
        (calculateOverallModeration frames₂ textAnalysis).totalIssues ∧
      (calculateOverallModeration frames₁ textAnalysis).status =
        (calculateOverallModeration frames₂ textAnalysis).status ∧
      (calculateOverallModeration frames₁ textAnalysis).requiresHumanReview =
        (calculateOverallModeration frames₂ textAnalysis).requiresHumanReview := by
  have hsev : (calculateOverallModeration frames₁ textAnalysis).severity =
      (calculateOverallModeration frames₂ textAnalysis).severity := by
    apply severity_eq_of_rank_eq (overall_severity_ne_unknown _ _)
      (overall_severity_ne_unknown _ _)
    rw [overall_severity_rank, overall_severity_rank]
    have hp : (frameRanks frames₁).Perm (frameRanks frames₂) :=
      (h.filterMap _).map _
    rw [maxRank_perm hp]
  have hcnt : (frames₁.filter frameHasIssues).length = (frames₂.filter frameHasIssues).length :=
    (h.filter _).length_eq
  have hrev : (calculateOverallModeration frames₁ textAnalysis).requiresHumanReview =
      (calculateOverallModeration frames₂ textAnalysis).requiresHumanReview := by
    have e : ∀ fr, (calculateOverallModeration fr textAnalysis).requiresHumanReview =
        decide ((calculateOverallModeration fr textAnalysis).severity ≠ Severity.NONE) :=
      fun _ => rfl
    rw [e, e, hsev]
  have hst : (calculateOverallModeration frames₁ textAnalysis).status =
      (calculateOverallModeration frames₂ textAnalysis).status := by
    have e : ∀ fr, (calculateOverallModeration fr textAnalysis).status =
        if (calculateOverallModeration fr textAnalysis).requiresHumanReview then Status.REVIEW
        else Status.PASS := fun _ => rfl
    rw [e, e, hrev]
  refine ⟨hsev, ?_, hst, hrev⟩
  simp only [calculateOverallModeration]
  rw [hcnt]

/-- C2 at a concrete input: a frame with a HIGH result and a frame that
    carries only an error, in both orders. -/
theorem C2_overall_order_independent_witness :
    [knifeFrame, failedFrame].Perm [failedFrame, knifeFrame] ∧
    (calculateOverallModeration [knifeFrame, failedFrame] allClear).severity =
      (calculateOverallModeration [failedFrame, knifeFrame] allClear).severity :=
  ⟨List.Perm.swap _ _ _,
    (C2_overall_order_independent [knifeFrame, failedFrame] [failedFrame, knifeFrame] allClear
      (List.Perm.swap _ _ _)).1⟩

/-- C3: totalIssues is the number of frames that have a result whose hasIssues
    is true, plus one exactly when the text result has hasIssues; a frame that
    carries only an error, wherever it stands in the list, adds nothing. -/
theorem C3_total_issues_count (frameResults : List FrameResult)
    (textAnalysis : TextModerationResult) :
    (calculateOverallModeration frameResults textAnalysis).totalIssues =
        ((frameResults.filterMap (fun f => f.result)).countP (fun r => r.hasIssues)) +
          (if textAnalysis.hasIssues = true then 1 else 0) ∧
      ∀ (before after : List FrameResult) (label message : String),
        (calculateOverallModeration
            (before ++ { frame := label, result := none, error := some message } :: after)
            textAnalysis).totalIssues =
          (calculateOverallModeration (before ++ after) textAnalysis).totalIssues := by
  have hcount : ∀ frames : List FrameResult, (frames.filter frameHasIssues).length =
      (frames.filterMap (fun f => f.result)).countP (fun r => r.hasIssues) := by
    intro frames
    induction frames with
    | nil => rfl
    | cons f rest ih =>
      cases hf : f.result with
      | none => simp [List.filter_cons, frameHasIssues, hf, ih]
      | some r =>
        cases hr : r.hasIssues <;>
          simp [List.filter_cons, frameHasIssues, hf, hr, ih, List.countP_cons]
  constructor
  · simp only [calculateOverallModeration]
    rw [hcount]
  · intro before after label message
    simp only [calculateOverallModeration, List.filter_append, List.filter_cons,
      frameHasIssues]
    simp

/-- C4: requiresHumanReview is true exactly when the returned severity is not
    NONE; status is REVIEW exactly when requiresHumanReview is true and PASS
    exactly when it is false. -/
theorem C4_review_iff_severity_not_none (frameResults : List FrameResult)
    (textAnalysis : TextModerationResult) :
    ((calculateOverallModeration frameResults textAnalysis).requiresHumanReview = true ↔
        (calculateOverallModeration frameResults textAnalysis).severity ≠ Severity.NONE) ∧
      ((calculateOverallModeration frameResults textAnalysis).status = Status.REVIEW ↔
        (calculateOverallModeration frameResults textAnalysis).requiresHumanReview = true) ∧
      ((calculateOverallModeration frameResults textAnalysis).status = Status.PASS ↔
        (calculateOverallModeration frameResults textAnalysis).requiresHumanReview = false) := by
  refine ⟨?_, ?_, ?_⟩
  · simp only [calculateOverallModeration, decide_eq_true_eq]
  · simp only [calculateOverallModeration]
    split_ifs <;> simp_all
  · simp only [calculateOverallModeration]
    split_ifs <;> simp_all

/-- C5: when every frame either carries only an error or carries a result
    with hasIssues false and severity NONE or UNKNOWN, and the text result has
    hasIssues false and severity NONE, the verdict is exactly
    PASS, NONE, 0 issues, no human review. -/
theorem C5_nothing_found_passes (frameResults : List FrameResult)
    (textAnalysis : TextModerationResult)
    (hframes : ∀ f ∈ frameResults, f.result = none ∨
      ∃ r, f.result = some r ∧ r.hasIssues = false ∧
        (r.severity = Severity.NONE ∨ r.severity = Severity.UNKNOWN))
    (hissues : textAnalysis.hasIssues = false)
    (hsev : textAnalysis.severity = Severity.NONE) :
    calculateOverallModeration frameResults textAnalysis =
      { status := Status.PASS, severity := Severity.NONE, totalIssues := 0,
        requiresHumanReview := false } := by
  have hfold : frameResults.foldl frameStep Severity.NONE = Severity.NONE := by
    induction frameResults with
    | nil => rfl
    | cons f rest ih =>
      have hf := hframes f (List.mem_cons_self _ _)
      have hstep : frameStep Severity.NONE f = Severity.NONE := by
        rcases hf with hf | ⟨r, hf, -, hr | hr⟩
        · simp [frameStep, hf]
        · simp [frameStep, hf, hr, severityLevels]
        · simp [frameStep, hf, hr, severityLevels]
      rw [List.foldl_cons, hstep]
      exact ih (fun g hg => hframes g (List.mem_cons_of_mem _ hg))
  have hfilter : frameResults.filter frameHasIssues = [] := by
    rw [List.filter_eq_nil_iff]
    intro f hf
    rcases hframes f hf with h | ⟨r, h, hr, -⟩
    · simp [frameHasIssues, h]
    · simp [frameHasIssues, h, hr]
  simp [calculateOverallModeration, hfold, hfilter, hissues, hsev]

/-- C5 at a concrete input: one frame that carries only an error, one frame
    with the degraded result of a failed analysis, and the all-clear text. -/
theorem C5_nothing_found_passes_witness :
    calculateOverallModeration [failedFrame, degradedFrame] allClear =
      { status := Status.PASS, severity := Severity.NONE, totalIssues := 0,
        requiresHumanReview := false } :=
  C5_nothing_found_passes [failedFrame, degradedFrame] allClear
    (by
      intro f hf
      simp only [List.mem_cons, List.mem_singleton, List.not_mem_nil, or_false] at hf
      rcases hf with rfl | rfl
      · exact Or.inl rfl
      · exact Or.inr ⟨analysisFailed, rfl, rfl, Or.inr rfl⟩)
    rfl rfl

/-! ## Theorems: the text moderator -/

theorem moderateText_blank (this : TextModerator) (text : String) (h : isBlank text = true) :
    moderateText this text = (allClear, this) := by
  simp [moderateText, h, allClear]

theorem moderateText_bannedWords (this : TextModerator) (text : String)
    (h : isBlank text = false) :
    (moderateText this text).1.bannedWords =
      findBannedWords (this.tokenize (this.toLowerCase text))
        ((this.tokenize (this.toLowerCase text)).map this.stem) := by
  simp [moderateText, h]

theorem moderateText_patterns (this : TextModerator) (text : String)
    (h : isBlank text = false) :
    (moderateText this text).1.hasSuspiciousPatterns =
      (testPatterns text this.bannedPatterns).1 := by
  simp [moderateText, h]

theorem moderateText_toxicity (this : TextModerator) (text : String)
    (h : isBlank text = false) :
    (moderateText this text).1.toxicityScore = calculateToxicityScore this text := by
  simp [moderateText, h, calculateToxicityScore]

theorem moderateText_hasIssues (this : TextModerator) (text : String)
    (h : isBlank text = false) :
    (moderateText this text).1.hasIssues =
      (decide ((moderateText this text).1.bannedWords.length > 0) ||
        (moderateText this text).1.hasSuspiciousPatterns ||
        decide ((moderateText this text).1.toxicityScore > 6 / 10)) := by
  simp [moderateText, h]

theorem moderateText_severity (this : TextModerator) (text : String)
    (h : isBlank text = false) :
    (moderateText this text).1.severity =
      calculateSeverity (moderateText this text).1.bannedWords.length
        (moderateText this text).1.toxicityScore := by
  simp [moderateText, h]

/-- C6, refuted as stated: on a fresh moderator the text
    `oh my you so dumb to me` (seven tokens, one negative indicator, toxicity
    3/7) gets severity LOW together with hasIssues = false. -/
theorem C6_low_severity_without_issues :
    (moderateText sampleModerator "oh my you so dumb to me").1.hasIssues = false ∧
      (moderateText sampleModerator "oh my you so dumb to me").1.severity = Severity.LOW ∧
      (moderateText sampleModerator "oh my you so dumb to me").1.toxicityScore = 3 / 7 := by
  have hblank : isBlank "oh my you so dumb to me" = false := by decide
  have htok : wordTokenize (asciiLower "oh my you so dumb to me") =
      ["oh", "my", "you", "so", "dumb", "to", "me"] := by decide
  have hfound : findBannedWords ["oh", "my", "you", "so", "dumb", "to", "me"]
      (["oh", "my", "you", "so", "dumb", "to", "me"].map (fun token => token)) = [] := by
    decide
  have hneg : countNegative ["oh", "my", "you", "so", "dumb", "to", "me"] = 1 := by decide
  have hpat : (testPatterns "oh my you so dumb to me" freshPatterns).1 = false := by decide
  have hbw : (moderateText sampleModerator "oh my you so dumb to me").1.bannedWords = [] := by
    rw [moderateText_bannedWords _ _ hblank]
    simp only [sampleModerator, htok]
    exact hfound
  have htox : (moderateText sampleModerator "oh my you so dumb to me").1.toxicityScore =
      3 / 7 := by
    rw [moderateText_toxicity _ _ hblank]
    simp only [calculateToxicityScore, sampleModerator, htok, hneg]
    norm_num
  have hp : (moderateText sampleModerator "oh my you so dumb to me").1.hasSuspiciousPatterns =
      false := by
    rw [moderateText_patterns _ _ hblank]
    exact hpat
  refine ⟨?_, ?_, htox⟩
  · rw [moderateText_hasIssues _ _ hblank, hbw, hp, htox]
    norm_num
  · rw [moderateText_severity _ _ hblank, hbw, htox]
    simp only [calculateSeverity]
    norm_num

/-- C6, amended: whenever `moderateText` returns severity HIGH it returns
    hasIssues = true; it returns hasIssues = false together with a severity
    other than NONE exactly when no banned word was found, no pattern matched
    and the toxicity score lies in the interval (0.3, 0.6]. -/
theorem C6_issues_flag_versus_severity (this : TextModerator) (text : String) :
    ((moderateText this text).1.severity = Severity.HIGH →
        (moderateText this text).1.hasIssues = true) ∧
      (((moderateText this text).1.hasIssues = false ∧
          (moderateText this text).1.severity ≠ Severity.NONE) ↔
        ((moderateText this text).1.bannedWords = [] ∧
          (moderateText this text).1.hasSuspiciousPatterns = false ∧
          3 / 10 < (moderateText this text).1.toxicityScore ∧
          (moderateText this text).1.toxicityScore ≤ 6 / 10)) := by
  cases hblank : isBlank text with
  | true =>
    rw [moderateText_blank _ _ hblank]
    simp only [allClear]
    constructor
    · intro h
      cases h
    · norm_num
  | false =>
    rw [moderateText_hasIssues _ _ hblank, moderateText_severity _ _ hblank]
    generalize (moderateText this text).1.bannedWords = bw
    generalize (moderateText this text).1.hasSuspiciousPatterns = pat
    generalize (moderateText this text).1.toxicityScore = tox
    have hlen : bw = [] ↔ bw.length = 0 := List.length_eq_zero.symm
    constructor
    · intro hs
      by_cases h1 : bw.length > 3
      · have : bw.length > 0 := by omega
        simp [this]
      · by_cases h2 : tox > 8 / 10
        · have : tox > 6 / 10 := by linarith
          simp [this]
        · simp [calculateSeverity, h1, h2] at hs
          split_ifs at hs
    · rw [hlen]
      simp only [calculateSeverity, Bool.or_eq_false_iff, decide_eq_false_iff_not, not_lt,
        gt_iff_lt]
      constructor
      · rintro ⟨⟨⟨h1, h2⟩, h3⟩, h4⟩
        have h0 : bw.length = 0 := by omega
        refine ⟨h0, h2, ?_, h3⟩
        by_contra hc
        apply h4
        have h5 : ¬ (8 / 10 < tox) := by linarith
        have h6 : ¬ (5 / 10 < tox) := by linarith
        simp [h0, h5, h6, hc]
      · rintro ⟨h0, h2, h3, h4⟩
        refine ⟨⟨⟨by omega, h2⟩, h4⟩, ?_⟩
        have h5 : ¬ (8 / 10 < tox) := by linarith
        simp only [h0, h5, h3]
        split_ifs <;> simp_all

theorem testPatterns_of_lastIndex_zero (text : String) (patterns : List RegExp)
    (h : ∀ p ∈ patterns, p.lastIndex = 0) :
    (testPatterns text patterns).1 = patterns.any (fun p => p.source.matchesIn text) := by
  induction patterns with
  | nil => rfl
  | cons p rest ih =>
    have hp : p.lastIndex = 0 := h p (List.mem_cons_self _ _)
    have hrest := ih (fun q hq => h q (List.mem_cons_of_mem _ hq))
    have htest : (p.test text).1 = p.source.matchesIn text := by
      simp only [RegExp.test, Re.matchesIn, hp, Nat.sub_zero]
      cases searchFrom p.source text.toList (text.toList.length + 1) 0 <;> simp
    simp only [testPatterns, List.any_cons]
    cases hm : (p.test text).1 with
    | true => rw [← htest, hm]; simp
    | false => rw [← htest, hm]; simpa using hrest

/-- C7, evaluated at the failing input: the text `see http://x.y` contains a
    URL and the first call of `moderateText` on a fresh moderator reports it,
    but the next call on the same moderator with the same text returns
    hasSuspiciousPatterns = false: the URL pattern resumes at the `lastIndex`
    (14, the end of the text) the first call left behind. -/
theorem C7_second_call_misses_url :
    urlPattern.matchesIn "see http://x.y" = true ∧
      (moderateText sampleModerator "see http://x.y").1.hasSuspiciousPatterns = true ∧
      (afterCalls sampleModerator ["see http://x.y"]).bannedPatterns.map
          (fun p => p.lastIndex) = [14, 0, 0, 0, 0] ∧
      (moderateText (afterCalls sampleModerator ["see http://x.y"])
          "see http://x.y").1.hasSuspiciousPatterns = false := by
  decide

theorem foldl_findings (stem : String → String) (full : List String) :
    ∀ (l : List String) (k : Nat) (acc : List Finding), full.drop k = l →
      List.foldl (pushFinding full) acc ((l.map stem).enumFrom k) =
      acc ++ ((List.range' k l.length).filter
          (fun i => bannedWords.contains (stem (full.getD i "")))).map
        (fun i => ({ word := full.getD i "", position := i,
                     stemmed := stem (full.getD i "") } : Finding)) := by
  intro l
  induction l with
  | nil => intro k acc _; simp
  | cons a rest ih =>
    intro k acc hdrop
    have hget : full.getD k "" = a := by
      have h1 : full[k]? = some a := by
        have := congrArg List.head? hdrop
        simpa [List.head?_drop] using this
      simp [List.getD_eq_getElem?_getD, h1]
    have hrest : full.drop (k + 1) = rest := by
      have := congrArg List.tail hdrop
      simpa [List.tail_drop] using this
    simp only [List.map_cons, List.enumFrom_cons, List.foldl_cons, List.length_cons,
      List.range'_succ, List.filter_cons, hget]
    rw [ih (k + 1) _ hrest]
    have hget2 : full[k]?.getD "" = a := by simpa using hget
    by_cases hb : stem a ∈ bannedWords
    · simp [pushFinding, hb, hget2]
    · simp [pushFinding, hb]

theorem findBannedWords_eq (stem : String → String) (tokens : List String) :
    findBannedWords tokens (tokens.map stem) =
      ((List.range tokens.length).filter
          (fun i => bannedWords.contains (stem (tokens.getD i "")))).map
        (fun i => ({ word := tokens.getD i "", position := i,
                     stemmed := stem (tokens.getD i "") } : Finding)) := by
  have h := foldl_findings stem tokens tokens 0 [] rfl
  simp only [List.nil_append] at h
  rw [List.range_eq_range']
  exact h

theorem length_filter_eq_one_of_nodup {l : List Nat} (hn : l.Nodup) {i : Nat} (hi : i ∈ l) :
    (l.filter (fun j => decide (j = i))).length = 1 := by
  induction l with
  | nil => simp at hi
  | cons a rest ih =>
    rw [List.nodup_cons] at hn
    by_cases ha : a = i
    · subst ha
      have hnone : rest.filter (fun j => decide (j = a)) = [] := by
        rw [List.filter_eq_nil_iff]
        intro j hj
        simp only [decide_eq_true_eq]
        intro hja
        exact hn.1 (hja ▸ hj)
      simp [List.filter_cons, hnone]
    · have hi2 : i ∈ rest := by
        rcases List.mem_cons.mp hi with h | h
        · exact absurd h.symm ha
        · exact h
      simp [List.filter_cons, ha, ih hn.2 hi2]

/-- C8: for a non-blank text with `tokens = tokenize(lowercase(text))`, the
    list bannedWords holds, in increasing order of the token index, one
    finding with position `i` and stemmed form `stem(tokens[i])` for exactly
    the indices `i` whose stem is in the banned-term set: every stemmed form
    is a banned term, positions are strictly increasing, and every banned
    position has exactly one finding (so a stem that is banned at several
    positions is recorded once per position). -/
theorem C8_banned_findings (this : TextModerator) (text : String)
    (h : isBlank text = false) :
    (moderateText this text).1.bannedWords.map (fun f => (f.position, f.stemmed)) =
        ((List.range (this.tokenize (this.toLowerCase text)).length).filter
          (fun i => decide (this.stem ((this.tokenize (this.toLowerCase text)).getD i "") ∈
            bannedWords))).map
          (fun i => (i, this.stem ((this.tokenize (this.toLowerCase text)).getD i ""))) ∧
      (∀ f ∈ (moderateText this text).1.bannedWords, f.stemmed ∈ bannedWords) ∧
      ((moderateText this text).1.bannedWords.map (fun f => f.position)).Pairwise
        (fun a b => a < b) ∧
      (∀ i, i < (this.tokenize (this.toLowerCase text)).length →
        this.stem ((this.tokenize (this.toLowerCase text)).getD i "") ∈ bannedWords →
        ((moderateText this text).1.bannedWords.filter
          (fun f => decide (f.position = i))).length = 1) := by
  rw [moderateText_bannedWords _ _ h, findBannedWords_eq]
  generalize this.tokenize (this.toLowerCase text) = tokens
  have hpos : (((List.range tokens.length).filter
        (fun i => bannedWords.contains (this.stem (tokens.getD i "")))).map
        (fun i => ({ word := tokens.getD i "", position := i,
                     stemmed := this.stem (tokens.getD i "") } : Finding))).map
        (fun f => f.position) =
      (List.range tokens.length).filter
        (fun i => bannedWords.contains (this.stem (tokens.getD i ""))) := by
    simp [List.map_map, Function.comp_def]
  refine ⟨?_, ?_, ?_, ?_⟩
  · simp [List.map_map, Function.comp_def]
  · intro f hf
    rw [List.mem_map] at hf
    obtain ⟨i, hi, rfl⟩ := hf
    rw [List.mem_filter] at hi
    simpa using hi.2
  · rw [hpos]
    exact List.Pairwise.sublist (List.filter_sublist _) (List.pairwise_lt_range _)
  · intro i hi hb
    have hnodup : ((List.range tokens.length).filter
        (fun i => bannedWords.contains (this.stem (tokens.getD i "")))).Nodup :=
      (List.nodup_range _).sublist (List.filter_sublist _)
    have hmem : i ∈ (List.range tokens.length).filter
        (fun i => bannedWords.contains (this.stem (tokens.getD i ""))) := by
      rw [List.mem_filter]
      exact ⟨List.mem_range.mpr hi, by simpa using hb⟩
    have hone := length_filter_eq_one_of_nodup hnodup hmem
    rw [List.filter_map, List.length_map]
    exact hone

/-- C8 at a concrete input: `kill the gun` has the banned stems `kill` at
    position 0 and `gun` at position 2. -/
theorem C8_banned_findings_witness :
    isBlank "kill the gun" = false ∧
      (moderateText sampleModerator "kill the gun").1.bannedWords.map
          (fun f => (f.position, f.stemmed)) = [(0, "kill"), (2, "gun")] :=
  ⟨by decide, (C8_banned_findings sampleModerator "kill the gun" (by decide)).1.trans
    (by decide)⟩

/-- C9, refuted as stated: for the upper-case input `KILL` the tokenizer sees
    the token `KILL` in the text, but the finding carries the word `kill`. -/
theorem C9_upper_case_token_is_lowered :
    wordTokenize "KILL" = ["KILL"] ∧
      (moderateText sampleModerator "KILL").1.bannedWords =
        [{ word := "kill", position := 0, stemmed := "kill" }] ∧
      ¬ (∀ f ∈ (moderateText sampleModerator "KILL").1.bannedWords,
          f.word = (wordTokenize "KILL").getD f.position "") := by
  refine ⟨by decide, by decide, ?_⟩
  intro hall
  have hmem : ({ word := "kill", position := 0, stemmed := "kill" } : Finding) ∈
      (moderateText sampleModerator "KILL").1.bannedWords := by decide
  have := hall _ hmem
  revert this
  decide

/-- C9, amended: the word of every finding is the token of the lower-cased
    text at the position of the finding, `tokens[position]` with
    `tokens = tokenize(lowercase(text))`, and that position is a token index. -/
theorem C9_word_is_lowercased_token (this : TextModerator) (text : String) :
    ∀ f ∈ (moderateText this text).1.bannedWords,
      f.position < (this.tokenize (this.toLowerCase text)).length ∧
        f.word = (this.tokenize (this.toLowerCase text)).getD f.position "" := by
  intro f hf
  cases hblank : isBlank text with
  | true =>
    rw [moderateText_blank _ _ hblank] at hf
    simp [allClear] at hf
  | false =>
    rw [moderateText_bannedWords _ _ hblank, findBannedWords_eq, List.mem_map] at hf
    obtain ⟨i, hi, rfl⟩ := hf
    rw [List.mem_filter, List.mem_range] at hi
    exact ⟨hi.1, rfl⟩

/-- C9 (amended) at a concrete input: the finding of the text `KILL`. -/
theorem C9_word_is_lowercased_token_witness :
    ({ word := "kill", position := 0, stemmed := "kill" } : Finding) ∈
        (moderateText sampleModerator "KILL").1.bannedWords ∧
      (0 < (wordTokenize (asciiLower "KILL")).length ∧
        "kill" = (wordTokenize (asciiLower "KILL")).getD 0 "") :=
  ⟨by decide, C9_word_is_lowercased_token sampleModerator "KILL"
    { word := "kill", position := 0, stemmed := "kill" } (by decide)⟩

theorem isTokenChar_toLower_of_isWhiteSpace (c : Char) (h : isWhiteSpace c = true) :
    isTokenChar c.toLower = false := by
  have hn : ¬ (c.toNat ≥ 65 ∧ c.toNat ≤ 90) := by
    simp only [isWhiteSpace, Bool.or_eq_true, Bool.and_eq_true, decide_eq_true_eq,
      beq_iff_eq] at h
    omega
  have hlow : c.toLower = c := by
    simp only [Char.toLower]
    rw [if_neg hn]
  rw [hlow]
  have hne : (c == '_') = false := by
    rw [beq_eq_false_iff_ne]
    intro hc
    rw [hc] at h
    revert h
    decide
  simp only [isWhiteSpace, Bool.or_eq_true, Bool.and_eq_true, decide_eq_true_eq,
    beq_iff_eq] at h
  simp only [isTokenChar, isWordChar, isLetter, isDigit, hne, Bool.or_false,
    Bool.or_eq_false_iff, Bool.and_eq_false_iff, decide_eq_false_iff_not]
  omega

theorem splitWords_of_no_token_char (l : List Char)
    (h : ∀ c ∈ l, isTokenChar c = false) : splitWords l [] = [] := by
  induction l with
  | nil => rfl
  | cons c cs ih =>
    have hc := h c (List.mem_cons_self _ _)
    simp only [splitWords, hc, List.isEmpty_nil, if_true]
    simpa using ih (fun d hd => h d (List.mem_cons_of_mem _ hd))

theorem wordTokenize_blank (s : String) (h : isBlank s = true) :
    wordTokenize (asciiLower s) = [] := by
  apply splitWords_of_no_token_char
  intro c hc
  simp only [asciiLower, String.toList, List.mem_map] at hc
  obtain ⟨d, hd, rfl⟩ := hc
  simp only [isBlank, List.all_eq_true] at h
  exact isTokenChar_toLower_of_isWhiteSpace d (h d hd)

/-- C10: when the tokenizer returns no token for a blank text (as the word
    tokenizer does) and the lower-cased text has `n ≥ 1` tokens of which `k`
    are negative indicators with `3k ≥ n`, `calculateToxicityScore` returns
    exactly 1 and `moderateText` returns toxicityScore 1 and severity HIGH,
    whatever the banned-word findings are. -/
theorem C10_toxic_text_is_high (this : TextModerator) (text : String)
    (hcontract : ∀ s, isBlank s = true → this.tokenize (this.toLowerCase s) = [])
    (hn : 1 ≤ (this.tokenize (this.toLowerCase text)).length)
    (hk : (this.tokenize (this.toLowerCase text)).length ≤
      3 * countNegative (this.tokenize (this.toLowerCase text))) :
    calculateToxicityScore this text = 1 ∧
      (moderateText this text).1.toxicityScore = 1 ∧
      (moderateText this text).1.severity = Severity.HIGH := by
  have hblank : isBlank text = false := by
    cases hb : isBlank text with
    | false => rfl
    | true =>
      rw [hcontract text hb] at hn
      simp at hn
  have htox : calculateToxicityScore this text = 1 := by
    simp only [calculateToxicityScore]
    generalize (this.tokenize (this.toLowerCase text)).length = n at hn hk
    generalize countNegative (this.tokenize (this.toLowerCase text)) = k at hk
    have hmax : max n 1 = n := by omega
    rw [hmax]
    have hnpos : (0 : ℚ) < (n : ℚ) := by exact_mod_cast hn
    have hkq : (n : ℚ) ≤ 3 * (k : ℚ) := by exact_mod_cast hk
    apply min_eq_right
    rw [div_mul_eq_mul_div, le_div_iff₀ hnpos]
    linarith
  refine ⟨htox, ?_, ?_⟩
  · rw [moderateText_toxicity _ _ hblank, htox]
  · rw [moderateText_severity _ _ hblank, moderateText_toxicity _ _ hblank, htox]
    simp only [calculateSeverity]
    norm_num

/-- C10 at a concrete input: ten tokens of which four (`stupid`, `idiot`,
    `dumb`, `loser`) are negative indicators and none is a banned word. -/
theorem C10_toxic_text_is_high_witness :
    (wordTokenize (asciiLower "you stupid idiot you dumb loser go away from me")).length = 10 ∧
      countNegative
        (wordTokenize (asciiLower "you stupid idiot you dumb loser go away from me")) = 4 ∧
      (moderateText sampleModerator
        "you stupid idiot you dumb loser go away from me").1.bannedWords = [] ∧
      (calculateToxicityScore sampleModerator
          "you stupid idiot you dumb loser go away from me" = 1 ∧
        (moderateText sampleModerator
          "you stupid idiot you dumb loser go away from me").1.toxicityScore = 1 ∧
        (moderateText sampleModerator
          "you stupid idiot you dumb loser go away from me").1.severity = Severity.HIGH) :=
  ⟨by decide, by decide, by decide,
    C10_toxic_text_is_high sampleModerator "you stupid idiot you dumb loser go away from me"
      wordTokenize_blank (by decide) (by decide)⟩

/-! ## Theorems: toxicity score and blank texts -/

theorem foldl_countNegative (tokens : List String) (n : Nat) :
    tokens.foldl (fun negativeCount token =>
      if negativeIndicators.contains token then negativeCount + 1 else negativeCount) n =
      n + tokens.countP (fun token => decide (token ∈ negativeIndicators)) := by
  induction tokens generalizing n with
  | nil => simp
  | cons t rest ih =>
    rw [List.foldl_cons, ih, List.countP_cons]
    by_cases ht : t ∈ negativeIndicators
    · simp [ht]; omega
    · simp [ht]

theorem countNegative_eq_countP (tokens : List String) :
    countNegative tokens = tokens.countP (fun token => decide (token ∈ negativeIndicators)) := by
  unfold countNegative
  rw [foldl_countNegative, Nat.zero_add]

/-- C11: with `n` the number of tokens of the lower-cased text and `k` the
    number of those tokens that are in the negative-indicator list,
    `calculateToxicityScore` returns `min(3k / max(n, 1), 1)` in exact
    arithmetic; the value lies in `[0, 1]`, and it is `0` when there are no
    tokens. -/
theorem C11_toxicity_score_formula (this : TextModerator) (text : String) :
    calculateToxicityScore this text =
        min (3 * (((this.tokenize (this.toLowerCase text)).countP
              (fun token => decide (token ∈ negativeIndicators)) : Nat) : ℚ) /
            ((max (this.tokenize (this.toLowerCase text)).length 1 : Nat) : ℚ)) 1 ∧
      0 ≤ calculateToxicityScore this text ∧
      calculateToxicityScore this text ≤ 1 ∧
      (this.tokenize (this.toLowerCase text) = [] → calculateToxicityScore this text = 0) := by
  simp only [calculateToxicityScore, countNegative_eq_countP]
  generalize this.tokenize (this.toLowerCase text) = tokens
  have hpos : (0 : ℚ) < ((max tokens.length 1 : Nat) : ℚ) := by
    have : 0 < max tokens.length 1 := by omega
    exact_mod_cast this
  have hk : (0 : ℚ) ≤ ((tokens.countP (fun token => decide (token ∈ negativeIndicators)) : Nat) : ℚ) :=
    Nat.cast_nonneg _
  refine ⟨?_, ?_, ?_, ?_⟩
  · congr 1
    ring
  · apply le_min
    · exact mul_nonneg (div_nonneg hk hpos.le) (by norm_num)
    · norm_num
  · exact min_le_right _ _
  · intro h
    rw [h]
    simp

/-- C12: for a text that is empty or consists only of white space,
    `moderateText` returns the all-clear result and leaves the moderator as
    it was; the result is the same for every tokenizer, stemmer, lower-casing
    and state of the patterns. -/
theorem C12_blank_text_all_clear (this other : TextModerator) (text : String)
    (h : isBlank text = true) :
    (moderateText this text).1 =
        { hasIssues := false, bannedWords := [], hasSuspiciousPatterns := false,
          toxicityScore := 0, severity := Severity.NONE } ∧
      (moderateText other text).1 = (moderateText this text).1 ∧
      (moderateText this text).2.bannedPatterns = this.bannedPatterns := by
  rw [moderateText_blank this text h, moderateText_blank other text h]
  exact ⟨rfl, rfl, rfl⟩

/-- C12 at concrete inputs: the text of three blanks, on a fresh moderator
    and on one whose URL pattern carries a `lastIndex`. -/
theorem C12_blank_text_all_clear_witness :
    isBlank "   " = true ∧
      (moderateText sampleModerator "   ").1 = allClear ∧
      (moderateText (afterCalls sampleModerator ["see http://x.y"]) "   ").1 =
        (moderateText sampleModerator "   ").1 :=
  ⟨by decide,
    (C12_blank_text_all_clear sampleModerator (afterCalls sampleModerator ["see http://x.y"])
      "   " (by decide)).1,
    (C12_blank_text_all_clear sampleModerator (afterCalls sampleModerator ["see http://x.y"])
      "   " (by decide)).2.1⟩

/-! ## Theorems: the image moderator -/

theorem startsWithChars_iff (k s : List Char) : startsWithChars k s = true ↔ k <+: s := by
  induction k generalizing s with
  | nil => simp [startsWithChars]
  | cons a ks ih =>
    cases s with
    | nil => simp [startsWithChars]
    | cons c cs =>
      simp only [startsWithChars, Bool.and_eq_true, beq_iff_eq, ih, List.cons_prefix_cons]

theorem includesChars_iff (k s : List Char) : includesChars k s = true ↔ k <:+: s := by
  induction s with
  | nil => simp [includesChars, List.isEmpty_iff]
  | cons c cs ih =>
    simp only [includesChars, Bool.or_eq_true, startsWithChars_iff, ih]
    exact List.infix_cons_iff.symm

theorem includes_iff (s keyword : String) :
    includes s keyword = true ↔ keyword.data <:+: s.data :=
  includesChars_iff _ _

theorem infix_of_infix_append_cons {kw x y : List Char} {c : Char} (hc : c ∉ kw)
    (h : kw <:+: x ++ c :: y) : kw <:+: x ∨ kw <:+: y := by
  induction x with
  | nil =>
    rw [List.nil_append, List.infix_cons_iff] at h
    rcases h with h | h
    · cases kw with
      | nil => exact Or.inl List.nil_infix
      | cons a rest =>
        rw [List.cons_prefix_cons] at h
        exact absurd (h.1 ▸ List.mem_cons_self _ _) hc
    · exact Or.inr h
  | cons a x ih =>
    rw [List.cons_append, List.infix_cons_iff] at h
    rcases h with h | h
    · have hx : (a :: x) <+: (a :: x) ++ c :: y := List.prefix_append _ _
      rw [← List.cons_append] at h
      rcases List.prefix_or_prefix_of_prefix h hx with h1 | h1
      · exact Or.inl h1.isInfix
      · obtain ⟨r, hr⟩ := h1
        rw [← hr, List.prefix_append_right_inj] at h
        cases r with
        | nil =>
          rw [List.append_nil] at hr
          exact Or.inl (hr ▸ List.infix_refl _)
        | cons b r =>
          rw [List.cons_prefix_cons] at h
          exfalso
          apply hc
          rw [← hr, h.1]
          simp
    · rcases ih h with h1 | h1
      · exact Or.inl (List.infix_cons h1)
      · exact Or.inr h1

theorem infix_of_infix_append_left {kw d y : List Char} (hd : ∀ c ∈ d, c ∉ kw)
    (h : kw <:+: d ++ y) : kw <:+: y := by
  induction d with
  | nil => simpa using h
  | cons c d ih =>
    have h2 : kw <:+: [] ++ c :: (d ++ y) := by simpa using h
    rcases infix_of_infix_append_cons (hd c (List.mem_cons_self _ _)) h2 with h3 | h3
    · rw [List.infix_nil] at h3
      rw [h3]
      exact List.nil_infix
    · exact ih (fun e he => hd e (List.mem_cons_of_mem _ he)) h3

theorem digitChar_isDigit (d : Nat) (hd : d < 10) : isDigit (Nat.digitChar d) = true := by
  interval_cases d <;> decide

theorem toDigitsCore_isDigit (fuel : Nat) :
    ∀ (n : Nat) (acc : List Char), (∀ c ∈ acc, isDigit c = true) →
      ∀ c ∈ Nat.toDigitsCore 10 fuel n acc, isDigit c = true := by
  induction fuel with
  | zero => intro n acc hacc; simpa [Nat.toDigitsCore] using hacc
  | succ fuel ih =>
    intro n acc hacc
    have hcons : ∀ c ∈ Nat.digitChar (n % 10) :: acc, isDigit c = true := by
      intro c hc
      rcases List.mem_cons.mp hc with h | h
      · rw [h]
        exact digitChar_isDigit _ (Nat.mod_lt _ (by norm_num))
      · exact hacc c h
    simp only [Nat.toDigitsCore]
    split_ifs
    · exact hcons
    · exact ih _ _ hcons

theorem repr_isDigit (n : Nat) : ∀ c ∈ (Nat.repr n).data, isDigit c = true := by
  have h := toDigitsCore_isDigit (n + 1) n [] (by simp)
  simpa [Nat.repr, Nat.toDigits, List.asString] using h

theorem foldl_pushObjectIssues (toLowerCase : String → String) (objects : List DetectedObject)
    (acc : List String) :
    objects.foldl (pushObjectIssues toLowerCase) acc =
      acc ++ (objects.map (fun obj =>
        (if firesHighRisk toLowerCase obj = true then [highRiskIssue obj] else []) ++
        (if firesInappropriate toLowerCase obj = true then [inappropriateIssue obj]
          else []))).flatten := by
  induction objects generalizing acc with
  | nil => simp
  | cons obj rest ih =>
    rw [List.foldl_cons, ih]
    simp only [pushObjectIssues, List.map_cons, List.flatten_cons]
    split_ifs <;> simp

theorem length_foldl_pushObjectIssues (toLowerCase : String → String)
    (objects : List DetectedObject) :
    (objects.foldl (pushObjectIssues toLowerCase) []).length =
      objects.countP (firesHighRisk toLowerCase) +
        objects.countP (firesInappropriate toLowerCase) := by
  rw [foldl_pushObjectIssues]
  induction objects with
  | nil => simp
  | cons obj rest ih =>
    simp only [List.nil_append, List.map_cons, List.flatten_cons, List.length_append,
      List.countP_cons] at ih ⊢
    rw [ih]
    split_ifs <;> simp <;> omega

theorem mem_foldl_pushObjectIssues (toLowerCase : String → String)
    (objects : List DetectedObject) (issue : String) :
    issue ∈ objects.foldl (pushObjectIssues toLowerCase) [] ↔
      ∃ obj ∈ objects, (firesHighRisk toLowerCase obj = true ∧ issue = highRiskIssue obj) ∨
        (firesInappropriate toLowerCase obj = true ∧ issue = inappropriateIssue obj) := by
  rw [foldl_pushObjectIssues]
  simp only [List.nil_append, List.mem_flatten, List.mem_map]
  constructor
  · rintro ⟨l, ⟨obj, hobj, rfl⟩, hl⟩
    refine ⟨obj, hobj, ?_⟩
    rw [List.mem_append] at hl
    rcases hl with h | h
    · left
      split_ifs at h with hf
      · exact ⟨hf, List.mem_singleton.mp h⟩
      · simp at h
    · right
      split_ifs at h with hf
      · exact ⟨hf, List.mem_singleton.mp h⟩
      · simp at h
  · rintro ⟨obj, hobj, h⟩
    refine ⟨_, ⟨obj, hobj, rfl⟩, ?_⟩
    rw [List.mem_append]
    rcases h with ⟨hf, rfl⟩ | ⟨hf, rfl⟩
    · left; simp [hf]
    · right; simp [hf]

theorem mem_analyzeDetections (toLowerCase : String → String) (objects : List DetectedObject)
    (faces : List DetectedFace) (issue : String) :
    issue ∈ analyzeDetections toLowerCase objects faces ↔
      issue ∈ objects.foldl (pushObjectIssues toLowerCase) [] ∨
        (faces.length > 0 ∧ issue = faceIssue faces.length) ∨
        (objects.length > 10 ∧ issue = spamIssue objects.length) := by
  simp only [analyzeDetections]
  split_ifs with h1 h2 h2 <;> simp [h1, h2, or_assoc]

theorem length_analyzeDetections (toLowerCase : String → String)
    (objects : List DetectedObject) (faces : List DetectedFace) :
    (analyzeDetections toLowerCase objects faces).length =
      objects.countP (firesHighRisk toLowerCase) +
        objects.countP (firesInappropriate toLowerCase) +
        (if faces.length > 0 then 1 else 0) + (if objects.length > 10 then 1 else 0) := by
  simp only [analyzeDetections]
  split_ifs with h1 h2 h2 <;> simp [length_foldl_pushObjectIssues]

theorem calculateImageSeverity_high_iff (issues : List String) :
    calculateImageSeverity issues = Severity.HIGH ↔
      ∃ issue ∈ issues, ∃ keyword ∈ highRiskKeywords, includes issue keyword = true := by
  simp only [calculateImageSeverity]
  split_ifs with h1 h2 h3
  · simp only [true_iff]
    simpa [List.any_eq_true] using h1
  · simp only [false_iff, reduceCtorEq]
    simpa [List.any_eq_true] using h1
  · simp only [false_iff, reduceCtorEq]
    simpa [List.any_eq_true] using h1
  · simp only [false_iff, reduceCtorEq]
    simpa [List.any_eq_true] using h1

theorem calculateImageSeverity_of_no_keyword (issues : List String)
    (h : ∀ issue ∈ issues, ∀ keyword ∈ highRiskKeywords, includes issue keyword = false) :
    calculateImageSeverity issues =
      if issues.length > 2 then Severity.MEDIUM
      else if issues.length > 0 then Severity.LOW else Severity.NONE := by
  have hany : (issues.any (fun issue =>
      highRiskKeywords.any (fun keyword => includes issue keyword))) = false := by
    rw [List.any_eq_false]
    intro issue hi
    rw [Bool.not_eq_true, List.any_eq_false]
    intro keyword hk
    rw [h issue hi keyword hk]
    simp
  simp only [calculateImageSeverity, hany]
  simp

theorem keyword_chars_plain :
    ∀ kw ∈ highRiskKeywords, ∀ k ∈ kw.data,
      isDigit k = false ∧ k ≠ ' ' ∧ k ≠ '(' := by
  decide

theorem digit_not_mem_keyword {kw : String} (hkw : kw ∈ highRiskKeywords) {c : Char}
    (hc : isDigit c = true) : c ∉ kw.data := by
  intro hmem
  have := (keyword_chars_plain kw hkw c hmem).1
  rw [hc] at this
  exact Bool.noConfusion this

theorem fixed_wording_no_keyword :
    ∀ kw ∈ highRiskKeywords,
      includesChars kw.data "Detected".data = false ∧
      includesChars kw.data " face(s) - potential privacy concern".data = false ∧
      includesChars kw.data "High object count ".data = false ∧
      includesChars kw.data ") - potential spam".data = false ∧
      includesChars kw.data "Potentially inappropriate object:".data = false := by
  decide

theorem context_classes_no_keyword :
    ∀ low ∈ inappropriateObjects, ∀ kw ∈ highRiskKeywords,
      includes low (asciiLower kw) = false := by
  decide

theorem faceIssue_no_keyword (count : Nat) :
    ∀ keyword ∈ highRiskKeywords, includes (faceIssue count) keyword = false := by
  intro kw hkw
  rw [← Bool.not_eq_true, includes_iff]
  intro h
  have e : (faceIssue count).data =
      "Detected".data ++ ' ' ::
        ((Nat.repr count).data ++ " face(s) - potential privacy concern".data) := by
    simp [faceIssue, String.data_append]
  rw [e] at h
  have hsp : ' ' ∉ kw.data := fun hm => (keyword_chars_plain kw hkw _ hm).2.1 rfl
  have hfix := fixed_wording_no_keyword kw hkw
  rcases infix_of_infix_append_cons hsp h with h1 | h1
  · rw [← includesChars_iff, hfix.1] at h1
    exact Bool.noConfusion h1
  · have h2 := infix_of_infix_append_left
      (fun c hc => digit_not_mem_keyword hkw (repr_isDigit count c hc)) h1
    rw [← includesChars_iff, hfix.2.1] at h2
    exact Bool.noConfusion h2

theorem spamIssue_no_keyword (count : Nat) :
    ∀ keyword ∈ highRiskKeywords, includes (spamIssue count) keyword = false := by
  intro kw hkw
  rw [← Bool.not_eq_true, includes_iff]
  intro h
  have e : (spamIssue count).data =
      "High object count ".data ++ '(' ::
        ((Nat.repr count).data ++ ") - potential spam".data) := by
    simp [spamIssue, String.data_append]
  rw [e] at h
  have hsp : '(' ∉ kw.data := fun hm => (keyword_chars_plain kw hkw _ hm).2.2 rfl
  have hfix := fixed_wording_no_keyword kw hkw
  rcases infix_of_infix_append_cons hsp h with h1 | h1
  · rw [← includesChars_iff, hfix.2.2.1] at h1
    exact Bool.noConfusion h1
  · have h2 := infix_of_infix_append_left
      (fun c hc => digit_not_mem_keyword hkw (repr_isDigit count c hc)) h1
    rw [← includesChars_iff, hfix.2.2.2.1] at h2
    exact Bool.noConfusion h2

theorem inappropriateIssue_no_keyword (toLowerCase : String → String)
    (hlower : ∀ s, ∀ keyword ∈ highRiskKeywords, includes s keyword = true →
      includes (toLowerCase s) (asciiLower keyword) = true)
    (obj : DetectedObject) (hobj : toLowerCase obj.cls ∈ inappropriateObjects) :
    ∀ keyword ∈ highRiskKeywords, includes (inappropriateIssue obj) keyword = false := by
  intro kw hkw
  rw [← Bool.not_eq_true, includes_iff]
  intro h
  have e : (inappropriateIssue obj).data =
      "Potentially inappropriate object:".data ++ ' ' :: obj.cls.data := by
    simp [inappropriateIssue, String.data_append]
  rw [e] at h
  have hsp : ' ' ∉ kw.data := fun hm => (keyword_chars_plain kw hkw _ hm).2.1 rfl
  have hfix := fixed_wording_no_keyword kw hkw
  rcases infix_of_infix_append_cons hsp h with h1 | h1
  · rw [← includesChars_iff, hfix.2.2.2.2] at h1
    exact Bool.noConfusion h1
  · rw [← includes_iff] at h1
    have h2 := hlower obj.cls kw hkw h1
    rw [context_classes_no_keyword _ hobj kw hkw] at h2
    exact Bool.noConfusion h2

theorem firesHighRisk_iff (toLowerCase : String → String) (obj : DetectedObject) :
    firesHighRisk toLowerCase obj = true ↔
      toLowerCase obj.cls ∈ highRiskObjects ∧ obj.score > 5 / 10 := by
  simp [firesHighRisk]

theorem firesInappropriate_iff (toLowerCase : String → String) (obj : DetectedObject) :
    firesInappropriate toLowerCase obj = true ↔
      toLowerCase obj.cls ∈ inappropriateObjects ∧ obj.score > 7 / 10 := by
  simp [firesInappropriate]

theorem highRiskIssue_includes (obj : DetectedObject) :
    includes (highRiskIssue obj) obj.cls = true ∧
      includes (highRiskIssue obj) "High-risk" = true := by
  constructor
  · rw [includes_iff]
    refine ⟨"High-risk object detected: ".data,
      " (confidence: ".data ++ (toFixed2 obj.score).data ++ ")".data, ?_⟩
    simp [highRiskIssue, String.data_append]
  · rw [includes_iff]
    refine ⟨[], " object detected: ".data ++ obj.cls.data ++ " (confidence: ".data ++
      (toFixed2 obj.score).data ++ ")".data, ?_⟩
    simp [highRiskIssue, String.data_append]

theorem asciiLower_includes (s keyword : String) (h : includes s keyword = true) :
    includes (asciiLower s) (asciiLower keyword) = true := by
  rw [includes_iff] at h ⊢
  obtain ⟨a, b, hab⟩ := h
  refine ⟨a.map Char.toLower, b.map Char.toLower, ?_⟩
  simp only [asciiLower, String.toList]
  rw [← hab]
  simp

theorem toFixed2_nine_tenths : toFixed2 (9 / 10) = "0.90" := by
  have hfloor : ⌊|(9 / 10 : ℚ)| * 100 + 1 / 2⌋ = 90 := by
    rw [Int.floor_eq_iff]
    norm_num [abs_of_nonneg]
  have hneg : ¬ ((9 / 10 : ℚ) < 0) := by norm_num
  simp only [toFixed2, hfloor, hneg, if_false]
  decide

theorem analyzeDetections_knife :
    analyzeDetections asciiLower [{ cls := "knife", score := 9 / 10, bbox := [] }] [] =
      ["High-risk object detected: knife (confidence: 0.90)"] := by
  have h1 : firesHighRisk asciiLower { cls := "knife", score := 9 / 10, bbox := [] } = true := by
    rw [firesHighRisk_iff]
    exact ⟨by decide, by norm_num⟩
  have h2 : firesInappropriate asciiLower { cls := "knife", score := 9 / 10, bbox := [] } =
      false := by
    rw [← Bool.not_eq_true, firesInappropriate_iff]
    exact fun h => absurd h.1 (by decide)
  simp only [analyzeDetections, List.foldl_cons, List.foldl_nil, pushObjectIssues, h1, h2,
    highRiskIssue, toFixed2_nine_tenths]
  decide

/-- C13: when the object list holds an object whose lower-cased class is one
    of knife, gun, pistol, rifle, weapon and whose score is above 0.5, then
    for every face list `analyzeDetections` returns an issue that contains
    the class of that object, and `calculateImageSeverity` of the issues is
    HIGH. -/
theorem C13_high_risk_object_is_high (toLowerCase : String → String)
    (objects : List DetectedObject) (faces : List DetectedFace) (obj : DetectedObject)
    (hmem : obj ∈ objects) (hcls : toLowerCase obj.cls ∈ highRiskObjects)
    (hscore : obj.score > 5 / 10) :
    (∃ issue ∈ analyzeDetections toLowerCase objects faces, includes issue obj.cls = true) ∧
      calculateImageSeverity (analyzeDetections toLowerCase objects faces) = Severity.HIGH := by
  have hfire : firesHighRisk toLowerCase obj = true :=
    (firesHighRisk_iff _ _).mpr ⟨hcls, hscore⟩
  have hin : highRiskIssue obj ∈ analyzeDetections toLowerCase objects faces := by
    rw [mem_analyzeDetections, mem_foldl_pushObjectIssues]
    exact Or.inl ⟨obj, hmem, Or.inl ⟨hfire, rfl⟩⟩
  refine ⟨⟨_, hin, (highRiskIssue_includes obj).1⟩, ?_⟩
  rw [calculateImageSeverity_high_iff]
  exact ⟨_, hin, "High-risk", by decide, (highRiskIssue_includes obj).2⟩

/-- C13 at the concrete input of the specification: the single object
    `{class: "knife", score: 0.9}` and no faces. -/
theorem C13_high_risk_object_is_high_witness :
    (∃ issue ∈ analyzeDetections asciiLower [{ cls := "knife", score := 9 / 10, bbox := [] }] [],
        includes issue "knife" = true) ∧
      calculateImageSeverity
        (analyzeDetections asciiLower [{ cls := "knife", score := 9 / 10, bbox := [] }] []) =
        Severity.HIGH :=
  C13_high_risk_object_is_high asciiLower [{ cls := "knife", score := 9 / 10, bbox := [] }] []
    { cls := "knife", score := 9 / 10, bbox := [] } (List.mem_singleton.mpr rfl) (by decide)
    (by norm_num)

/-- C14: for more than 10 objects of which none fires the high-risk rule or
    the context rule, and an empty face list, `analyzeDetections` returns
    exactly one issue, the spam-density issue that names the object count, and
    `calculateImageSeverity` of it is LOW. -/
theorem C14_spam_only_is_low (toLowerCase : String → String)
    (objects : List DetectedObject) (hcount : objects.length > 10)
    (hnone : ∀ obj ∈ objects,
      ¬ (toLowerCase obj.cls ∈ highRiskObjects ∧ obj.score > 5 / 10) ∧
      ¬ (toLowerCase obj.cls ∈ inappropriateObjects ∧ obj.score > 7 / 10)) :
    analyzeDetections toLowerCase objects [] =
        ["High object count (" ++ Nat.repr objects.length ++ ") - potential spam"] ∧
      calculateImageSeverity (analyzeDetections toLowerCase objects []) = Severity.LOW := by
  have hfold : objects.foldl (pushObjectIssues toLowerCase) [] = [] := by
    rw [List.eq_nil_iff_forall_not_mem]
    intro issue hi
    rw [mem_foldl_pushObjectIssues] at hi
    obtain ⟨obj, hobj, h | h⟩ := hi
    · exact (hnone obj hobj).1 ((firesHighRisk_iff _ _).mp h.1)
    · exact (hnone obj hobj).2 ((firesInappropriate_iff _ _).mp h.1)
  have hissues : analyzeDetections toLowerCase objects [] = [spamIssue objects.length] := by
    simp [analyzeDetections, hfold, hcount]
  refine ⟨hissues, ?_⟩
  rw [hissues, calculateImageSeverity_of_no_keyword]
  · simp
  · intro issue hi keyword hk
    rw [List.mem_singleton.mp hi]
    exact spamIssue_no_keyword _ keyword hk

/-- C14 at the concrete input of the specification: eleven objects of class
    `cat` with score 0.3. -/
theorem C14_spam_only_is_low_witness :
    analyzeDetections asciiLower
        (List.replicate 11 { cls := "cat", score := 3 / 10, bbox := [] }) [] =
        ["High object count (11) - potential spam"] ∧
      calculateImageSeverity (analyzeDetections asciiLower
        (List.replicate 11 { cls := "cat", score := 3 / 10, bbox := [] }) []) = Severity.LOW :=
  C14_spam_only_is_low asciiLower
    (List.replicate 11 { cls := "cat", score := 3 / 10, bbox := [] }) (by decide)
    (by
      intro obj hobj
      rw [List.eq_of_mem_replicate hobj]
      exact ⟨fun h => absurd h.1 (by decide), fun h => absurd h.1 (by decide)⟩)

/-- C18: the substring-based severity agrees with a definition over the
    detections.  For a lower-casing under which a string that contains one of
    the four keywords still contains the lower-cased keyword, the severity of
    `analyzeDetections` is HIGH exactly when some object has a lower-cased
    class among knife, gun, pistol, rifle, weapon with score above 0.5;
    otherwise it is MEDIUM, LOW or NONE as the count `c` of context-flagged
    objects above 0.7, plus one for a non-empty face list, plus one for more
    than 10 objects, is above 2, one or two, or zero.  No context-flagged,
    face or spam issue string contains a keyword. -/
theorem C18_severity_from_detections (toLowerCase : String → String)
    (hlower : ∀ s, ∀ keyword ∈ highRiskKeywords, includes s keyword = true →
      includes (toLowerCase s) (asciiLower keyword) = true)
    (objects : List DetectedObject) (faces : List DetectedFace) :
    (calculateImageSeverity (analyzeDetections toLowerCase objects faces) = Severity.HIGH ↔
        ∃ obj ∈ objects, toLowerCase obj.cls ∈ highRiskObjects ∧ obj.score > 5 / 10) ∧
      ((¬ ∃ obj ∈ objects, toLowerCase obj.cls ∈ highRiskObjects ∧ obj.score > 5 / 10) →
        calculateImageSeverity (analyzeDetections toLowerCase objects faces) =
          if contextIssueCount toLowerCase objects faces > 2 then Severity.MEDIUM
          else if contextIssueCount toLowerCase objects faces ≥ 1 then Severity.LOW
          else Severity.NONE) ∧
      (∀ obj : DetectedObject, toLowerCase obj.cls ∈ inappropriateObjects →
        ∀ keyword ∈ highRiskKeywords, includes (inappropriateIssue obj) keyword = false) ∧
      (∀ count : Nat, ∀ keyword ∈ highRiskKeywords,
        includes (faceIssue count) keyword = false ∧
          includes (spamIssue count) keyword = false) := by
  have hclean : ∀ issue ∈ analyzeDetections toLowerCase objects faces,
      (¬ ∃ obj ∈ objects, firesHighRisk toLowerCase obj = true ∧ issue = highRiskIssue obj) →
      ∀ keyword ∈ highRiskKeywords, includes issue keyword = false := by
    intro issue hi hno keyword hk
    rw [mem_analyzeDetections, mem_foldl_pushObjectIssues] at hi
    rcases hi with ⟨obj, hobj, h | h⟩ | ⟨-, rfl⟩ | ⟨-, rfl⟩
    · exact absurd ⟨obj, hobj, h⟩ hno
    · rw [h.2]
      exact inappropriateIssue_no_keyword toLowerCase hlower obj
        ((firesInappropriate_iff _ _).mp h.1).1 keyword hk
    · exact faceIssue_no_keyword _ keyword hk
    · exact spamIssue_no_keyword _ keyword hk
  have hhigh : calculateImageSeverity (analyzeDetections toLowerCase objects faces) =
      Severity.HIGH ↔
      ∃ obj ∈ objects, toLowerCase obj.cls ∈ highRiskObjects ∧ obj.score > 5 / 10 := by
    rw [calculateImageSeverity_high_iff]
    constructor
    · rintro ⟨issue, hi, keyword, hk, hinc⟩
      by_contra hno
      have hno2 : ¬ ∃ obj ∈ objects,
          firesHighRisk toLowerCase obj = true ∧ issue = highRiskIssue obj := by
        rintro ⟨obj, hobj, hf, -⟩
        exact hno ⟨obj, hobj, (firesHighRisk_iff _ _).mp hf⟩
      rw [hclean issue hi hno2 keyword hk] at hinc
      exact Bool.noConfusion hinc
    · rintro ⟨obj, hobj, hcls, hscore⟩
      refine ⟨highRiskIssue obj, ?_, "High-risk", by decide, (highRiskIssue_includes obj).2⟩
      rw [mem_analyzeDetections, mem_foldl_pushObjectIssues]
      exact Or.inl ⟨obj, hobj, Or.inl ⟨(firesHighRisk_iff _ _).mpr ⟨hcls, hscore⟩, rfl⟩⟩
  refine ⟨hhigh, ?_, ?_, ?_⟩
  · intro hno
    have hall : ∀ issue ∈ analyzeDetections toLowerCase objects faces,
        ∀ keyword ∈ highRiskKeywords, includes issue keyword = false := by
      intro issue hi
      apply hclean issue hi
      rintro ⟨obj, hobj, hf, -⟩
      exact hno ⟨obj, hobj, (firesHighRisk_iff _ _).mp hf⟩
    have hzero : objects.countP (firesHighRisk toLowerCase) = 0 := by
      rw [List.countP_eq_zero]
      intro obj hobj hf
      exact hno ⟨obj, hobj, (firesHighRisk_iff _ _).mp hf⟩
    have hcongr : objects.countP (firesInappropriate toLowerCase) =
        objects.countP (fun obj =>
          decide (toLowerCase obj.cls ∈ inappropriateObjects ∧ obj.score > 7 / 10)) := by
      apply List.countP_congr
      intro obj _
      rw [firesInappropriate_iff]
      simp
    have hlen : (analyzeDetections toLowerCase objects faces).length =
        contextIssueCount toLowerCase objects faces := by
      rw [length_analyzeDetections, hzero, hcongr, contextIssueCount]
      cases faces with
      | nil => simp
      | cons f fs => simp
    rw [calculateImageSeverity_of_no_keyword _ hall, hlen]
    split_ifs <;> first | rfl | omega
  · intro obj hobj
    exact inappropriateIssue_no_keyword toLowerCase hlower obj hobj
  · intro count keyword hk
    exact ⟨faceIssue_no_keyword count keyword hk, spamIssue_no_keyword count keyword hk⟩

/-- C18 at a concrete input: three context-flagged objects and one face give
    the count 4 and the severity MEDIUM; there is no high-risk object. -/
theorem C18_severity_from_detections_witness :
    contextIssueCount asciiLower contextObjects [{ probability := none, landmarks := [] }] = 4 ∧
      calculateImageSeverity (analyzeDetections asciiLower contextObjects
        [{ probability := none, landmarks := [] }]) = Severity.MEDIUM := by
  have hcount : contextIssueCount asciiLower contextObjects
      [{ probability := none, landmarks := [] }] = 4 := by
    simp only [contextIssueCount, contextObjects, List.countP_cons, List.countP_nil]
    norm_num
    decide
  refine ⟨hcount, ?_⟩
  have h := (C18_severity_from_detections asciiLower
    (fun s keyword _ hinc => asciiLower_includes s keyword hinc) contextObjects
    [{ probability := none, landmarks := [] }]).2.1
    (by
      rintro ⟨obj, hobj, hcls, -⟩
      simp only [contextObjects, List.mem_cons, List.mem_singleton, List.not_mem_nil,
        or_false] at hobj
      rcases hobj with rfl | rfl | rfl <;> revert hcls <;> decide)
  rw [h, hcount]
  rfl

/-! ## Theorems: the frame extraction policy -/

theorem frameCount_le_half (d : ℚ) : ((frameCount d : ℤ) : ℚ) ≤ d / 2 := by
  have h1 : frameCount d ≤ ⌊d / 2⌋ := min_le_left _ _
  have h2 : ((⌊d / 2⌋ : ℤ) : ℚ) ≤ d / 2 := Int.floor_le _
  have h3 : ((frameCount d : ℤ) : ℚ) ≤ ((⌊d / 2⌋ : ℤ) : ℚ) := by exact_mod_cast h1
  linarith

theorem two_le_spacing (d : ℚ) (hpos : 0 < frameCount d) :
    2 ≤ d / (frameCount d : ℚ) := by
  have hq : (0 : ℚ) < (frameCount d : ℚ) := by exact_mod_cast hpos
  rw [le_div_iff₀ hq]
  have := frameCount_le_half d
  linarith

theorem length_timestamps (d : ℚ) : (timestamps d).length = (frameCount d).toNat := by
  simp [timestamps]

theorem timestamps_spaced (d : ℚ) : (timestamps d).Pairwise (fun a b => a + 2 ≤ b) := by
  by_cases hpos : 0 < frameCount d
  · have hq := two_le_spacing d hpos
    unfold timestamps
    apply List.Pairwise.map _ _ (List.pairwise_lt_range' 1 (frameCount d).toNat)
    intro i j hij
    have hij2 : ((i : ℚ) + 1) ≤ (j : ℚ) := by exact_mod_cast hij
    have hle : d / (frameCount d : ℚ) * (i : ℚ) + 2 ≤ d / (frameCount d : ℚ) * (j : ℚ) := by
      have hnn : 0 ≤ d / (frameCount d : ℚ) := by linarith
      nlinarith
    calc ⌊d / (frameCount d : ℚ) * (i : ℚ)⌋ + 2
        = ⌊d / (frameCount d : ℚ) * (i : ℚ) + 2⌋ := by
          rw [← Int.floor_add_int]; norm_num
      _ ≤ ⌊d / (frameCount d : ℚ) * (j : ℚ)⌋ := Int.floor_mono hle
  · have hz : (frameCount d).toNat = 0 := by
      rw [Int.toNat_eq_zero]
      omega
    simp [timestamps, hz]

theorem timestamps_nodup (d : ℚ) : (timestamps d).Nodup := by
  have h := timestamps_spaced d
  unfold List.Nodup
  exact h.imp (fun hab => by omega)

/-- C15, refuted as stated: for a duration of 4 seconds the frame count is 2
    and the timestamp list is `[2, 4]`, not `[4]`. -/
theorem C15_duration_four_is_not_single :
    frameCount 4 = 2 ∧ timestamps 4 = [2, 4] ∧ timestamps 4 ≠ [4] := by
  have hfloor : ⌊(4 : ℚ) / 2⌋ = 2 := by
    rw [Int.floor_eq_iff]
    norm_num
  have hcount : frameCount 4 = 2 := by
    unfold frameCount
    rw [hfloor]
    rfl
  have hts : timestamps 4 = [2, 4] := by
    simp only [timestamps, hcount]
    norm_num [List.range']
  refine ⟨hcount, hts, ?_⟩
  rw [hts]
  decide

/-- C15, amended: for a video of duration 4 seconds the timestamp list of the
    frame-extraction policy is exactly `[2, 4]`. -/
theorem C15_duration_four_timestamps : timestamps 4 = [2, 4] := by
  have hfloor : ⌊(4 : ℚ) / 2⌋ = 2 := by
    rw [Int.floor_eq_iff]
    norm_num
  have hcount : frameCount 4 = 2 := by
    unfold frameCount
    rw [hfloor]
    rfl
  simp only [timestamps, hcount]
  norm_num [List.range']

/-- C16: for a non-negative duration `d` the timestamp list has length
    `min(floor(d / 2), 10)`; it is empty when `d < 2`, never longer than 10,
    and of length exactly 10 when `d ≥ 20`. -/
theorem C16_timestamp_count (d : ℚ) (hd : 0 ≤ d) :
    (((timestamps d).length : ℕ) : ℤ) = min ⌊d / 2⌋ 10 ∧
      (d < 2 → timestamps d = []) ∧
      (timestamps d).length ≤ 10 ∧
      (20 ≤ d → (timestamps d).length = 10) := by
  have hfloor : 0 ≤ ⌊d / 2⌋ := Int.floor_nonneg.mpr (by linarith)
  have hnn : 0 ≤ frameCount d := le_min hfloor (by norm_num)
  have hle : frameCount d ≤ 10 := min_le_right _ _
  rw [length_timestamps]
  refine ⟨?_, ?_, ?_, ?_⟩
  · rw [Int.toNat_of_nonneg hnn]
    rfl
  · intro h2
    have hz : ⌊d / 2⌋ = 0 := by
      rw [Int.floor_eq_iff]
      constructor <;> norm_num <;> linarith
    have hc : frameCount d = 0 := by
      unfold frameCount
      rw [hz]
      rfl
    simp [timestamps, hc]
  · omega
  · intro h20
    have h10 : (10 : ℤ) ≤ ⌊d / 2⌋ := by
      rw [Int.le_floor]
      norm_num
      linarith
    have hc : frameCount d = 10 := by
      unfold frameCount
      exact min_eq_right h10
    rw [hc]
    rfl

/-- C16 at the concrete inputs of the specification: duration 1.5 gives no
    timestamp and duration 100 gives exactly 10. -/
theorem C16_timestamp_count_witness :
    timestamps (3 / 2) = [] ∧ (timestamps 100).length = 10 :=
  ⟨(C16_timestamp_count (3 / 2) (by norm_num)).2.1 (by norm_num),
    (C16_timestamp_count 100 (by norm_num)).2.2.2 (by norm_num)⟩

/-- C17, refuted as stated: there is no duration with a frame count above 1
    whose timestamp list holds the same integer at two positions. -/
theorem C17_no_duration_has_duplicates :
    ¬ ∃ d : ℚ, 1 < frameCount d ∧
      ∃ i j : ℕ, i < j ∧ j < (timestamps d).length ∧
        (timestamps d)[i]? = (timestamps d)[j]? := by
  rintro ⟨d, -, i, j, hij, hj, heq⟩
  have hi : i < (timestamps d).length := by omega
  rw [List.getElem?_eq_getElem hi, List.getElem?_eq_getElem hj, Option.some_inj] at heq
  have hp := List.pairwise_iff_getElem.mp (timestamps_spaced d) i j hi hj hij
  omega

/-- C17, amended: duplicate timestamps are not possible.  For every duration
    the timestamp list is strictly increasing, each timestamp at least 2 above
    every earlier one, so no integer occurs at two positions. -/
theorem C17_timestamps_strictly_increasing (d : ℚ) :
    (timestamps d).Pairwise (fun a b => a + 2 ≤ b) ∧
      (timestamps d).Pairwise (fun a b => a < b) ∧
      (timestamps d).Nodup := by
  refine ⟨timestamps_spaced d, ?_, timestamps_nodup d⟩
  exact (timestamps_spaced d).imp (fun hab => by omega)

/-- C20: for a duration `d ≥ 2` every timestamp `t` satisfies
    `2 ≤ t ≤ floor(d)`, and the last timestamp is `floor(d)`. -/
theorem C20_timestamps_within_video (d : ℚ) (hd : 2 ≤ d) :
    (∀ t ∈ timestamps d, 2 ≤ t ∧ t ≤ ⌊d⌋) ∧ (timestamps d).getLast? = some ⌊d⌋ := by
  have hfloor : 1 ≤ ⌊d / 2⌋ := by
    rw [Int.le_floor]
    norm_num
    linarith
  have hpos : 0 < frameCount d := lt_of_lt_of_le zero_lt_one (le_min hfloor (by norm_num))
  have hq := two_le_spacing d hpos
  have hqpos : (0 : ℚ) < (frameCount d : ℚ) := by exact_mod_cast hpos
  have hcast : (((frameCount d).toNat : ℕ) : ℚ) = (frameCount d : ℚ) := by
    have : (((frameCount d).toNat : ℕ) : ℤ) = frameCount d := Int.toNat_of_nonneg hpos.le
    exact_mod_cast this
  have hfull : d / (frameCount d : ℚ) * (frameCount d : ℚ) = d :=
    div_mul_cancel₀ d (ne_of_gt hqpos)
  constructor
  · intro t ht
    simp only [timestamps, List.mem_map, List.mem_range'_1] at ht
    obtain ⟨i, ⟨hi1, hi2⟩, rfl⟩ := ht
    have hi1q : (1 : ℚ) ≤ (i : ℚ) := by exact_mod_cast hi1
    have hi2q : (i : ℚ) ≤ (frameCount d : ℚ) := by
      rw [← hcast]
      have : i ≤ (frameCount d).toNat := by omega
      exact_mod_cast this
    constructor
    · rw [Int.le_floor]
      push_cast
      nlinarith
    · apply Int.floor_mono
      calc d / (frameCount d : ℚ) * (i : ℚ)
          ≤ d / (frameCount d : ℚ) * (frameCount d : ℚ) :=
            mul_le_mul_of_nonneg_left hi2q (by linarith)
        _ = d := hfull
  · obtain ⟨m, hm⟩ : ∃ m, (frameCount d).toNat = m + 1 := by
      have : 0 < (frameCount d).toNat := by
        rw [Int.lt_toNat]
        exact hpos
      exact ⟨(frameCount d).toNat - 1, by omega⟩
    have hlast : ((1 + m : ℕ) : ℚ) = (frameCount d : ℚ) := by
      rw [← hcast, hm]
      push_cast
      ring
    simp only [timestamps, hm, List.range'_concat, List.map_append, List.map_cons,
      List.map_nil, List.getLast?_concat, one_mul]
    rw [hlast, hfull]

/-- C20 at a concrete input: a video of 7 seconds is sampled at 2, 4 and 7. -/
theorem C20_timestamps_within_video_witness :
    (∀ t ∈ timestamps 7, 2 ≤ t ∧ t ≤ ⌊(7 : ℚ)⌋) ∧ (timestamps 7).getLast? = some ⌊(7 : ℚ)⌋ :=
  C20_timestamps_within_video 7 (by norm_num)

/-! ## Theorems: the overall severity is never UNKNOWN -/

theorem maxRank_eq_zero {ranks : List Nat} (h : ∀ r ∈ ranks, r = 0) : maxRank ranks = 0 := by
  induction ranks with
  | nil => rfl
  | cons a rest ih =>
    have ha : a = 0 := h a (List.mem_cons_self _ _)
    have hrest := ih (fun r hr => h r (List.mem_cons_of_mem _ hr))
    simp only [maxRank, List.foldr_cons] at hrest ⊢
    rw [hrest, ha]
    rfl

theorem overall_status_eq (frames : List FrameResult) (t : TextModerationResult) :
    (calculateOverallModeration frames t).status =
      if (calculateOverallModeration frames t).severity = Severity.NONE then Status.PASS
      else Status.REVIEW := by
  simp only [calculateOverallModeration]
  split_ifs <;> simp_all

theorem overall_none_of_rank_zero (frames : List FrameResult) (t : TextModerationResult)
    (hframes : ∀ f ∈ frames, ∀ r, f.result = some r →
      r.severity = Severity.NONE ∨ r.severity = Severity.UNKNOWN)
    (htext : t.severity = Severity.NONE ∨ t.severity = Severity.UNKNOWN) :
    (calculateOverallModeration frames t).severity = Severity.NONE := by
  apply severity_eq_of_rank_eq (overall_severity_ne_unknown frames t) (by decide)
  rw [overall_severity_rank]
  have h1 : maxRank (frameRanks frames) = 0 := by
    apply maxRank_eq_zero
    intro r hr
    simp only [frameRanks, List.mem_map, List.mem_filterMap] at hr
    obtain ⟨res, ⟨f, hf, hres⟩, rfl⟩ := hr
    rcases hframes f hf res hres with h | h <;> rw [h] <;> rfl
  have h2 : severityLevels t.severity = 0 := by
    rcases htext with h | h <;> rw [h] <;> rfl
  rw [h1, h2]
  rfl

/-- C19: the overall severity is never UNKNOWN, it is always one of NONE,
    LOW, MEDIUM, HIGH; when every frame result and the text result have
    severity NONE or UNKNOWN the verdict has severity NONE and status PASS,
    so a video whose frames all carry the degraded result of a failed
    analysis gets the same verdict as one whose frames were found clean. -/
theorem C19_overall_never_unknown (frameResults : List FrameResult)
    (textAnalysis : TextModerationResult) :
    ((calculateOverallModeration frameResults textAnalysis).severity = Severity.NONE ∨
        (calculateOverallModeration frameResults textAnalysis).severity = Severity.LOW ∨
        (calculateOverallModeration frameResults textAnalysis).severity = Severity.MEDIUM ∨
        (calculateOverallModeration frameResults textAnalysis).severity = Severity.HIGH) ∧
      ((∀ f ∈ frameResults, ∀ r, f.result = some r →
          r.severity = Severity.NONE ∨ r.severity = Severity.UNKNOWN) →
        (textAnalysis.severity = Severity.NONE ∨ textAnalysis.severity = Severity.UNKNOWN) →
        (calculateOverallModeration frameResults textAnalysis).severity = Severity.NONE ∧
          (calculateOverallModeration frameResults textAnalysis).status = Status.PASS) ∧
      (∀ n : Nat, calculateOverallModeration (List.replicate n degradedFrame) allClear =
        calculateOverallModeration (List.replicate n cleanFrame) allClear) := by
  refine ⟨?_, ?_, ?_⟩
  · have h := overall_severity_ne_unknown frameResults textAnalysis
    cases hs : (calculateOverallModeration frameResults textAnalysis).severity <;> simp_all
  · intro hframes htext
    have hsev := overall_none_of_rank_zero frameResults textAnalysis hframes htext
    refine ⟨hsev, ?_⟩
    rw [overall_status_eq, hsev]
    rfl
  · intro n
    have hd : (calculateOverallModeration (List.replicate n degradedFrame) allClear).severity =
        Severity.NONE := by
      apply overall_none_of_rank_zero
      · intro f hf r hr
        rw [List.eq_of_mem_replicate hf] at hr
        cases hr
        exact Or.inr rfl
      · exact Or.inl rfl
    have hc : (calculateOverallModeration (List.replicate n cleanFrame) allClear).severity =
        Severity.NONE := by
      apply overall_none_of_rank_zero
      · intro f hf r hr
        rw [List.eq_of_mem_replicate hf] at hr
        cases hr
        exact Or.inl rfl
      · exact Or.inl rfl
    have hfd : (List.replicate n degradedFrame).filter frameHasIssues = [] := by
      rw [List.filter_eq_nil_iff]
      intro f hf
      rw [List.eq_of_mem_replicate hf]
      decide
    have hfc : (List.replicate n cleanFrame).filter frameHasIssues = [] := by
      rw [List.filter_eq_nil_iff]
      intro f hf
      rw [List.eq_of_mem_replicate hf]
      decide
    have hform : ∀ frames : List FrameResult,
        (calculateOverallModeration frames allClear).severity = Severity.NONE →
        frames.filter frameHasIssues = [] →
        calculateOverallModeration frames allClear =
          { status := Status.PASS, severity := Severity.NONE, totalIssues := 0,
            requiresHumanReview := false } := by
      intro frames hsev hfil
      have hst := overall_status_eq frames allClear
      rw [hsev] at hst
      have hrev : (calculateOverallModeration frames allClear).requiresHumanReview =
          decide ((calculateOverallModeration frames allClear).severity ≠ Severity.NONE) := rfl
      rw [hsev] at hrev
      have htot : (calculateOverallModeration frames allClear).totalIssues =
          (frames.filter frameHasIssues).length + (if allClear.hasIssues then 1 else 0) := rfl
      rw [hfil] at htot
      cases hres : calculateOverallModeration frames allClear with
      | mk st sv ti rv =>
        rw [hres] at hsev hst hrev htot
        simp only at hsev hst hrev htot
        subst hsev hst hrev htot
        rfl
    rw [hform _ hd hfd, hform _ hc hfc]

end VideoModeration


